import Mathlib

/-!
# Lobster pipeline shell: shallow embedding and verification

This file embeds the core of the `lobster` repository in Lean 4 and settles the
frozen claims about it:

* the continuation-token codec (`src/token.js`): `JSON.stringify` / UTF-8 /
  base64url on the way out, the inverse chain wrapped in a single `Invalid
  token` funnel on the way back;
* the pipeline engines (`src/runtime.ts` and the SDK runtime's
  `runPipelineInternal`): sequential stage execution with halt short-circuit;
* the SDK `Lobster.run` / `Lobster.resume` entry points and their resume-token
  numbering;
* the `approve` gate command;
* `llm_task.invoke`: cache-key derivation, run-state reuse, and the bounded
  validation-retry loop.

Modelling conventions: JavaScript values flowing between stages are modelled by
the `Json` inductive below (JSON numbers are restricted to integers — floating
point is outside the embedding); async streams are modelled by the lists of
items they produce, since the engine is single-threaded and every claim is
about the produced items; I/O (file reads, HTTP calls) is modelled by explicit
function-valued parameters.
-/

/-! ## Characters referred to by code point

Quote, backslash and curly braces are written via `Char.ofNat` rather than as
character literals throughout this file. -/

def qChar : Char := Char.ofNat 34

def bsChar : Char := Char.ofNat 92

def obChar : Char := Char.ofNat 123

def cbChar : Char := Char.ofNat 125

def nlChar : Char := Char.ofNat 10

def crChar : Char := Char.ofNat 13

def tbChar : Char := Char.ofNat 9

def bkChar : Char := Char.ofNat 8

def ffChar : Char := Char.ofNat 12

/-! ## The JSON data model

`Json` models the JavaScript values that are serializable with
`JSON.stringify`: `null`, booleans, (integer) numbers, strings, arrays and
plain objects.  Object fields are an ordered association list, matching
JavaScript property-insertion order; a JavaScript object never carries a
duplicate key, and field lookup below is last-wins, matching `JSON.parse`. -/

inductive Json where
  | null
  | bool (b : Bool)
  | num (n : Int)
  | str (s : String)
  | arr (elements : List Json)
  | obj (fields : List (String × Json))

/-- Last-wins lookup in an object's field list (a later assignment to the same
property name wins in JavaScript, and `JSON.parse` keeps the last duplicate). -/
def fieldLookup (key : String) : List (String × Json) → Option Json
  | [] => none
  | (k, v) :: rest =>
    match fieldLookup key rest with
    | some w => some w
    | none => if k = key then some v else none

/-- Property access `j.key`: `some` value for an object that has the key,
`none` (JavaScript `undefined`) otherwise. -/
def Json.getField (j : Json) (key : String) : Option Json :=
  match j with
  | .obj fs => fieldLookup key fs
  | _ => none

/-! ## `JSON.stringify` -/

/-- Lowercase hexadecimal digit, as emitted by `JSON.stringify` escapes. -/
def hexChar (n : Nat) : Char :=
  if n < 10 then Char.ofNat (48 + n) else Char.ofNat (87 + n)

/-- One string character, escaped exactly as `JSON.stringify` escapes it:
quote, backslash, the five short control escapes, `\u00xx` for the remaining
control characters, everything else verbatim. -/
def escChar (c : Char) : List Char :=
  if c = qChar then [bsChar, qChar]
  else if c = bsChar then [bsChar, bsChar]
  else if c = bkChar then [bsChar, 'b']
  else if c = tbChar then [bsChar, 't']
  else if c = nlChar then [bsChar, 'n']
  else if c = ffChar then [bsChar, 'f']
  else if c = crChar then [bsChar, 'r']
  else if c.toNat < 32 then
    [bsChar, 'u', '0', '0', hexChar (c.toNat / 16), hexChar (c.toNat % 16)]
  else [c]

/-- A string literal: quote, escaped body, quote. -/
def quoteStr (s : String) : List Char :=
  qChar :: ((s.data.map escChar).flatten ++ [qChar])

/-- The decimal digit character of `n % 10`. -/
def decDigit (n : Nat) : Char := Char.ofNat (48 + n % 10)

/-- Decimal digits of `n`, most significant first, prepended to `acc`. -/
def natChars (n : Nat) (acc : List Char) : List Char :=
  if n < 10 then decDigit n :: acc
  else natChars (n / 10) (decDigit n :: acc)
termination_by n
decreasing_by exact Nat.div_lt_self (by omega) (by omega)

/-- The decimal notation of an integer, as `JSON.stringify` renders an integral
JavaScript number. -/
def intChars (i : Int) : List Char :=
  (if i < 0 then ['-'] else []) ++ natChars i.natAbs []

mutual

/-- `JSON.stringify`, producing the character list of the serialization. -/
def jsonChars : Json → List Char
  | .null => "null".data
  | .bool true => "true".data
  | .bool false => "false".data
  | .num i => intChars i
  | .str s => quoteStr s
  | .arr es => '[' :: (arrayBody es ++ [']'])
  | .obj fs => obChar :: (objectBody fs ++ [cbChar])

/-- Comma-separated serializations of array elements. -/
def arrayBody : List Json → List Char
  | [] => []
  | [e] => jsonChars e
  | e :: e2 :: es => jsonChars e ++ ',' :: arrayBody (e2 :: es)

/-- Comma-separated `"key":value` serializations of object fields. -/
def objectBody : List (String × Json) → List Char
  | [] => []
  | [(k, v)] => quoteStr k ++ ':' :: jsonChars v
  | (k, v) :: f2 :: fs => quoteStr k ++ ':' :: (jsonChars v ++ ',' :: objectBody (f2 :: fs))

end

/-- `JSON.stringify` as a `String`-producing function. -/
def Json.stringify (j : Json) : String := String.mk (jsonChars j)

/-! ## `JSON.parse`

A recursive-descent parser over the character list, total by a fuel argument
(the entry point supplies `length + 1`, which the round-trip proof shows is
enough for any serializer output).  It follows the JSON grammar as `JSON.parse`
accepts it, with two deliberate restrictions of the embedding, both invisible
to serializer output: number literals are integer-only (no fraction/exponent,
and leading zeros are not rejected), and a `\uXXXX` escape denoting a lone
surrogate is rejected (such a token would decode to a JavaScript string with no
counterpart among Unicode-scalar strings). -/

/-- JSON insignificant whitespace. -/
def isWsChar (c : Char) : Bool :=
  c = ' ' || c = tbChar || c = nlChar || c = crChar

/-- Drop leading JSON whitespace. -/
def dropWs : List Char → List Char
  | [] => []
  | c :: cs => if isWsChar c then dropWs cs else c :: cs

/-- ASCII decimal digit. -/
def isDigitChar (c : Char) : Bool := 48 ≤ c.toNat && c.toNat ≤ 57

/-- Value of a digit run (most significant first). -/
def digitsVal (ds : List Char) : Nat :=
  ds.foldl (fun a c => a * 10 + (c.toNat - 48)) 0

/-- Parse a nonempty digit run into its value. -/
def parseNatNum (cs : List Char) : Option (Nat × List Char) :=
  let ds := cs.takeWhile isDigitChar
  if ds.isEmpty then none else some (digitsVal ds, cs.dropWhile isDigitChar)

/-- Parse a JSON (integer) number literal. -/
def parseNumber : List Char → Option (Int × List Char)
  | [] => none
  | c :: r =>
    if c = '-' then (parseNatNum r).map (fun p => (-(p.1 : Int), p.2))
    else (parseNatNum (c :: r)).map (fun p => ((p.1 : Int), p.2))

/-- Value of one hexadecimal digit (either case). -/
def hexVal (c : Char) : Option Nat :=
  if 48 ≤ c.toNat && c.toNat ≤ 57 then some (c.toNat - 48)
  else if 97 ≤ c.toNat && c.toNat ≤ 102 then some (c.toNat - 87)
  else if 65 ≤ c.toNat && c.toNat ≤ 70 then some (c.toNat - 55)
  else none

/-- Value of a four-digit hexadecimal escape payload. -/
def hexQuad (a b c d : Char) : Option Nat :=
  match hexVal a, hexVal b, hexVal c, hexVal d with
  | some va, some vb, some vc, some vd => some (((va * 16 + vb) * 16 + vc) * 16 + vd)
  | _, _, _, _ => none

/-- The single-character escapes accepted after a backslash. -/
def shortEscape (c : Char) : Option Char :=
  if c = qChar then some qChar
  else if c = bsChar then some bsChar
  else if c = '/' then some '/'
  else if c = 'b' then some bkChar
  else if c = 'f' then some ffChar
  else if c = 'n' then some nlChar
  else if c = 'r' then some crChar
  else if c = 't' then some tbChar
  else none

/-- Read four hex digits after `\u`, yielding their value and the remainder. -/
def readHex4 : List Char → Option (Nat × List Char)
  | h1 :: h2 :: h3 :: h4 :: rest => (hexQuad h1 h2 h3 h4).map (fun n => (n, rest))
  | _ => none

/-- Read the low-surrogate `\uXXXX` escape that must follow a high surrogate
`hi`, yielding the combined scalar (as the two UTF-16 code units combine in a
JavaScript string). -/
def readLowSurrogate (hi : Nat) : List Char → Option (Char × List Char)
  | e2 :: u2 :: cs =>
    if e2 = bsChar && u2 = 'u' then
      match readHex4 cs with
      | none => none
      | some (m, rest) =>
        if 56320 ≤ m && m < 57344 then
          some (Char.ofNat (65536 + (hi - 55296) * 1024 + (m - 56320)), rest)
        else none
    else none
  | _ => none

/-- Read a `\uXXXX` escape (possibly a surrogate pair). -/
def readUEscape (cs : List Char) : Option (Char × List Char) :=
  match readHex4 cs with
  | none => none
  | some (n, rest) =>
    if n < 55296 || 57343 < n then some (Char.ofNat n, rest)
    else if n < 56320 then readLowSurrogate n rest
    else none

/-- Read one escape after a backslash: `\uXXXX` or a short escape. -/
def readEscape : List Char → Option (Char × List Char)
  | [] => none
  | e :: rest =>
    if e = 'u' then readUEscape rest
    else
      match shortEscape e with
      | some ch => some (ch, rest)
      | none => none

/-- Parse a string body after the opening quote, accumulator-reversed,
fuel-bounded (each step consumes at least one character, so the caller's
`length + 1` fuel never truncates a parse). -/
def parseStrBody : Nat → List Char → List Char → Option (String × List Char)
  | 0, _, _ => none
  | _, _, [] => none
  | fuel + 1, acc, c :: rest =>
    if c = qChar then some (String.mk acc.reverse, rest)
    else if c = bsChar then
      match readEscape rest with
      | some (ch, rest2) => parseStrBody fuel (ch :: acc) rest2
      | none => none
    else if c.toNat < 32 then none
    else parseStrBody fuel (c :: acc) rest

mutual

/-- Parse one JSON value (fuel-bounded recursive descent). -/
def pVal : Nat → List Char → Option (Json × List Char)
  | 0, _ => none
  | fuel + 1, cs =>
    match dropWs cs with
    | [] => none
    | c :: r =>
      if c = 'n' then
        match r with
        | 'u' :: 'l' :: 'l' :: r2 => some (.null, r2)
        | _ => none
      else if c = 't' then
        match r with
        | 'r' :: 'u' :: 'e' :: r2 => some (.bool true, r2)
        | _ => none
      else if c = 'f' then
        match r with
        | 'a' :: 'l' :: 's' :: 'e' :: r2 => some (.bool false, r2)
        | _ => none
      else if c = qChar then
        match parseStrBody (r.length + 1) [] r with
        | some (s, r2) => some (.str s, r2)
        | none => none
      else if c = '[' then
        match dropWs r with
        | [] => none
        | c2 :: r2 =>
          if c2 = ']' then some (.arr [], r2)
          else
            match pElems fuel (c2 :: r2) with
            | some (es, r3) => some (.arr es, r3)
            | none => none
      else if c = obChar then
        match dropWs r with
        | [] => none
        | c2 :: r2 =>
          if c2 = cbChar then some (.obj [], r2)
          else
            match pFields fuel (c2 :: r2) with
            | some (fs, r3) => some (.obj fs, r3)
            | none => none
      else if c = '-' || isDigitChar c then
        match parseNumber (c :: r) with
        | some (i, r2) => some (.num i, r2)
        | none => none
      else none

/-- Parse one-or-more comma-separated array elements up to the closing `]`. -/
def pElems : Nat → List Char → Option (List Json × List Char)
  | 0, _ => none
  | fuel + 1, cs =>
    match pVal fuel cs with
    | none => none
    | some (v, r) =>
      match dropWs r with
      | ',' :: r2 =>
        match pElems fuel r2 with
        | some (vs, r3) => some (v :: vs, r3)
        | none => none
      | ']' :: r2 => some ([v], r2)
      | _ => none

/-- Parse one-or-more comma-separated object members up to the closing brace. -/
def pFields : Nat → List Char → Option (List (String × Json) × List Char)
  | 0, _ => none
  | fuel + 1, cs =>
    match dropWs cs with
    | [] => none
    | c :: r =>
      if c = qChar then
        match parseStrBody (r.length + 1) [] r with
        | none => none
        | some (k, r1) =>
          match dropWs r1 with
          | ':' :: r2 =>
            match pVal fuel r2 with
            | none => none
            | some (v, r3) =>
              match dropWs r3 with
              | ',' :: r4 =>
                match pFields fuel r4 with
                | some (fs, r5) => some ((k, v) :: fs, r5)
                | none => none
              | c2 :: r4 => if c2 = cbChar then some ([(k, v)], r4) else none
              | [] => none
          | _ => none
      else none

end

/-- `JSON.parse` over a character list: a full parse of the input (modulo
trailing whitespace), or `none` where `JSON.parse` throws. -/
def parseJsonChars (cs : List Char) : Option Json :=
  match pVal (cs.length + 1) cs with
  | some (j, r) => if (dropWs r).isEmpty then some j else none
  | none => none

/-- `JSON.parse` on a string. -/
def parseJson (s : String) : Option Json := parseJsonChars s.data

/-- A remainder that cannot extend a number literal: empty or headed by a
non-digit.  Every JSON delimiter (`,`, `]`, the closing brace, end of input)
qualifies; the round-trip statements carry this as their side condition. -/
def digitSafe : List Char → Bool
  | [] => true
  | c :: _ => !isDigitChar c

/-! ## UTF-8 (`Buffer.from(json, 'utf8')` and `buffer.toString('utf8')`)

Encoding maps each Unicode scalar to its 1–4 byte UTF-8 form.  Decoding is
strict (invalid sequences fail); Node's decoder instead substitutes U+FFFD for
invalid sequences and never throws — under `decodeToken` both behaviours
funnel into the same single error, since a substituted string is (with the
negligible exception of replacement characters appearing inside valid JSON)
not valid JSON, and no claim distinguishes the two. -/

/-- The UTF-8 bytes of one scalar value. -/
def utf8Char (c : Char) : List Nat :=
  let n := c.toNat
  if n < 128 then [n]
  else if n < 2048 then [192 + n / 64, 128 + n % 64]
  else if n < 65536 then [224 + n / 4096, 128 + n / 64 % 64, 128 + n % 64]
  else [240 + n / 262144, 128 + n / 4096 % 64, 128 + n / 64 % 64, 128 + n % 64]

/-- UTF-8 encode a character list. -/
def utf8Encode (cs : List Char) : List Nat := (cs.map utf8Char).flatten

/-- A UTF-8 continuation byte. -/
def contByte (b : Nat) : Bool := 128 ≤ b && b < 192

/-- Decode the continuation of a two-byte sequence with lead byte `b`. -/
def utf8Tail2 (b : Nat) : List Nat → Option (Nat × List Nat)
  | b2 :: r2 =>
    if contByte b2 then
      let n := (b - 192) * 64 + (b2 - 128)
      if n < 128 then none else some (n, r2)
    else none
  | _ => none

/-- Decode the continuation of a three-byte sequence with lead byte `b`. -/
def utf8Tail3 (b : Nat) : List Nat → Option (Nat × List Nat)
  | b2 :: b3 :: r3 =>
    if contByte b2 && contByte b3 then
      let n := (b - 224) * 4096 + (b2 - 128) * 64 + (b3 - 128)
      if n < 2048 then none
      else if 55296 ≤ n && n < 57344 then none
      else some (n, r3)
    else none
  | _ => none

/-- Decode the continuation of a four-byte sequence with lead byte `b`. -/
def utf8Tail4 (b : Nat) : List Nat → Option (Nat × List Nat)
  | b2 :: b3 :: b4 :: r4 =>
    if contByte b2 && contByte b3 && contByte b4 then
      let n := (b - 240) * 262144 + (b2 - 128) * 4096 + (b3 - 128) * 64 + (b4 - 128)
      if n < 65536 || 1114112 ≤ n then none
      else some (n, r4)
    else none
  | _ => none

/-- Strict UTF-8 decoding, fuel-bounded (each step consumes at least one byte,
so the caller\u2019s `length + 1` fuel never truncates a decode): overlong forms,
surrogates, out-of-range values and truncated sequences all fail. -/
def utf8Decode : Nat → List Nat → Option (List Char)
  | 0, _ => none
  | _, [] => some []
  | fuel + 1, b :: rest =>
    if b < 128 then (utf8Decode fuel rest).map (fun cs => Char.ofNat b :: cs)
    else if b < 192 then none
    else if b < 224 then
      match utf8Tail2 b rest with
      | some (n, r) => (utf8Decode fuel r).map (fun cs => Char.ofNat n :: cs)
      | none => none
    else if b < 240 then
      match utf8Tail3 b rest with
      | some (n, r) => (utf8Decode fuel r).map (fun cs => Char.ofNat n :: cs)
      | none => none
    else if b < 245 then
      match utf8Tail4 b rest with
      | some (n, r) => (utf8Decode fuel r).map (fun cs => Char.ofNat n :: cs)
      | none => none
    else none

/-! ## base64url (`buffer.toString('base64url')` / `Buffer.from(s, 'base64url')`)

Encoding is the standard unpadded URL-safe alphabet, three bytes to four
characters.  Decoding accepts exactly the encoder's output format (alphabet
characters, length not ≡ 1 mod 4); Node's decoder is more lenient (it skips
characters outside the alphabet and accepts `=` padding), which only enlarges
the set of strings that decode and is irrelevant to every claim: the
round-trip law touches only encoder outputs, and the error-funnel law is
insensitive to which stage fails. -/

/-- The base64url alphabet character for a 6-bit value. -/
def b64CharOf (v : Nat) : Char :=
  if v < 26 then Char.ofNat (65 + v)
  else if v < 52 then Char.ofNat (97 + (v - 26))
  else if v < 62 then Char.ofNat (48 + (v - 52))
  else if v = 62 then '-'
  else '_'

/-- The 6-bit value of a base64url alphabet character. -/
def b64ValOf (c : Char) : Option Nat :=
  if 65 ≤ c.toNat && c.toNat ≤ 90 then some (c.toNat - 65)
  else if 97 ≤ c.toNat && c.toNat ≤ 122 then some (c.toNat - 97 + 26)
  else if 48 ≤ c.toNat && c.toNat ≤ 57 then some (c.toNat - 48 + 52)
  else if c = '-' then some 62
  else if c = '_' then some 63
  else none

/-- Unpadded base64url encoding of a byte list. -/
def b64Encode : List Nat → List Char
  | [] => []
  | [a] => [b64CharOf (a / 4), b64CharOf (a % 4 * 16)]
  | [a, b] => [b64CharOf (a / 4), b64CharOf (a % 4 * 16 + b / 16), b64CharOf (b % 16 * 4)]
  | a :: b :: c :: rest =>
    b64CharOf (a / 4) :: b64CharOf (a % 4 * 16 + b / 16) ::
      b64CharOf (b % 16 * 4 + c / 64) :: b64CharOf (c % 64) :: b64Encode rest

/-- base64url decoding of an unpadded character list.  A single leftover
character carries fewer than eight bits and contributes no byte (as in Node,
where `Buffer.from('Q', 'base64url')` is empty). -/
def b64Decode : List Char → Option (List Nat)
  | [] => some []
  | [_] => some []
  | [c1, c2] =>
    match b64ValOf c1, b64ValOf c2 with
    | some a, some b => some [a * 4 + b / 16]
    | _, _ => none
  | [c1, c2, c3] =>
    match b64ValOf c1, b64ValOf c2, b64ValOf c3 with
    | some a, some b, some c => some [a * 4 + b / 16, b % 16 * 16 + c / 4]
    | _, _, _ => none
  | c1 :: c2 :: c3 :: c4 :: rest =>
    match b64ValOf c1, b64ValOf c2, b64ValOf c3, b64ValOf c4 with
    | some a, some b, some c, some d =>
      (b64Decode rest).map (fun bs => (a * 4 + b / 16) :: (b % 16 * 16 + c / 4) :: (c % 4 * 64 + d) :: bs)
    | _, _, _, _ => none

/-! ## The continuation-token codec (`src/token.js`)

```js
export function encodeToken(obj) {
  const json = JSON.stringify(obj);
  return Buffer.from(json, 'utf8').toString('base64url');
}
export function decodeToken(token) {
  try {
    const json = Buffer.from(String(token), 'base64url').toString('utf8');
    return JSON.parse(json);
  } catch (_err) {
    throw new Error('Invalid token');
  }
}
``` -/

/-- `encodeToken`: stringify, UTF-8 encode, base64url encode. -/
def encodeToken (j : Json) : String :=
  String.mk (b64Encode (utf8Encode (jsonChars j)))

/-- The stage at which decoding a token can fail (the distinct underlying
library errors that the `try`/`catch` in `decodeToken` funnels together). -/
inductive TokenDecodeFailure where
  | base64Failure
  | utf8Failure
  | notJson
deriving DecidableEq

/-- The body of `decodeToken` before the `catch`: transport-decode the string,
then `JSON.parse`, reporting which stage failed. -/
def decodeTokenStages (token : String) : Except TokenDecodeFailure Json :=
  match b64Decode token.data with
  | none => .error .base64Failure
  | some bytes =>
    match utf8Decode (bytes.length + 1) bytes with
    | none => .error .utf8Failure
    | some cs =>
      match parseJsonChars cs with
      | none => .error .notJson
      | some j => .ok j

/-- The single typed error `decodeToken` throws. -/
inductive TokenError where
  | invalidToken
deriving DecidableEq

/-- `decodeToken`: any failure of any stage becomes the one `Invalid token`
error (the `catch` branch). -/
def decodeToken (token : String) : Except TokenError Json :=
  match decodeTokenStages token with
  | .ok j => .ok j
  | .error _ => .error .invalidToken

/-! ## The stage contract and the SDK pipeline engine (`runPipelineInternal`)

A stage consumes the item sequence produced upstream and yields an output
sequence plus an optional halt flag; a stage failure is a raised error.  The
SDK runtime's dispatch between plain functions, generator functions and
`{ run }` objects disappears in the embedding: every variant denotes one
item-list transformer.  Streams are modelled by the lists of items they
produce (the engine is single-threaded, and the claims are about produced
items, not production timing). -/

structure StageResult where
  output : List Json
  halt : Bool

/-- A pipeline stage: items in, items out or a raised error. -/
abbrev Stage := List Json → Except String StageResult

structure PipelineResult where
  items : List Json
  halted : Bool
  haltedAt : Option Nat

/-- The stage loop of `runPipelineInternal`: run each stage on the previous
output; a halting stage short-circuits, recording its index, and its output
becomes the result items. -/
def runStages : List Stage → Nat → List Json → Except String PipelineResult
  | [], _, stream => .ok ⟨stream, false, none⟩
  | s :: rest, idx, stream =>
    match s stream with
    | .error e => .error e
    | .ok r =>
      if r.halt then .ok ⟨r.output, true, some idx⟩
      else runStages rest (idx + 1) r.output

/-- `runPipelineInternal` (SDK runtime). -/
def runPipelineInternal (stages : List Stage) (input : List Json) :
    Except String PipelineResult :=
  runStages stages 0 input

/-- Sequential composition of stage outputs with no halt handling: the stream
the final stage produces when every stage is run in order.  Used to state the
no-gate law. -/
def chainStages : List Stage → List Json → Except String (List Json)
  | [], input => .ok input
  | s :: rest, input =>
    match s input with
    | .error e => .error e
    | .ok r => chainStages rest r.output

/-! ## The CLI pipeline engine (`src/runtime.ts` `runPipeline`)

The CLI loop additionally resolves each stage name against the registry
(`Unknown command` on a miss) and accumulates a `rendered` flag. -/

structure CliStageResult where
  output : List Json
  halt : Bool
  rendered : Bool

/-- A registered command: arguments and input items to a stage result. -/
abbrev CliCommand := Json → List Json → Except String CliStageResult

structure CliStage where
  name : String
  args : Json

structure CliPipelineResult where
  items : List Json
  rendered : Bool
  halted : Bool
  haltedAt : Option (Nat × CliStage)

/-- The CLI stage loop. -/
def runCliStages (registry : String → Option CliCommand) :
    List CliStage → Nat → List Json → Bool → Except String CliPipelineResult
  | [], _, stream, rendered => .ok ⟨stream, rendered, false, none⟩
  | st :: rest, idx, stream, rendered =>
    match registry st.name with
    | none => .error ("Unknown command: " ++ st.name)
    | some cmd =>
      match cmd st.args stream with
      | .error e => .error e
      | .ok r =>
        let rendered2 := rendered || r.rendered
        if r.halt then .ok ⟨r.output, rendered2, true, some (idx, st)⟩
        else runCliStages registry rest (idx + 1) r.output rendered2

/-- `runPipeline` (CLI runtime). -/
def runPipeline (registry : String → Option CliCommand) (pipeline : List CliStage)
    (input : List Json) : Except String CliPipelineResult :=
  runCliStages registry pipeline 0 input false

/-- CLI analogue of `chainStages`, also folding the `rendered` flag. -/
def chainCliStages (registry : String → Option CliCommand) :
    List CliStage → List Json → Bool → Except String (List Json × Bool)
  | [], input, rendered => .ok (input, rendered)
  | st :: rest, input, rendered =>
    match registry st.name with
    | none => .error ("Unknown command: " ++ st.name)
    | some cmd =>
      match cmd st.args input with
      | .error e => .error e
      | .ok r => chainCliStages registry rest r.output (rendered || r.rendered)

/-! ## The SDK entry points: `Lobster.run` and `Lobster.resume`

The `Lobster` builder holds a stage list; `run` executes it and, when the
pipeline halts on a single `approval_request` item, wraps the halt in a
continuation token; `resume` decodes a token, slices the stage list at the
token's `resumeAtIndex`, and re-enters the engine with the token's items.
Stage errors are caught and surfaced as an error-status result. -/

inductive LobsterStatus where
  | ok
  | needsApproval
  | cancelled
  | error

structure ApprovalInfo where
  prompt : Option Json
  items : Option Json
  resumeToken : String

structure ErrorInfo where
  type : String
  message : String

structure LobsterResult where
  ok : Bool
  status : LobsterStatus
  output : List Json
  requiresApproval : Option ApprovalInfo
  error : Option ErrorInfo

/-- `items[0]?.type === 'approval_request'` on a result's single item. -/
def isApprovalItem (j : Json) : Bool :=
  match j.getField "type" with
  | some (.str t) => t = "approval_request"
  | _ => false

/-- `result.halted && result.items.length === 1 &&
 result.items[0]?.type === 'approval_request'`. -/
def approvalHalt (r : PipelineResult) : Bool :=
  r.halted && r.items.length == 1 && isApprovalItem (r.items.headD .null)

/-- `result.haltedAt?.index ?? -1`. -/
def haltIndexOrNeg (r : PipelineResult) : Int :=
  match r.haltedAt with
  | some i => (i : Int)
  | none => -1

/-- `result.haltedAt?.index ?? 0`. -/
def haltIndexOrZero (r : PipelineResult) : Int :=
  match r.haltedAt with
  | some i => (i : Int)
  | none => 0

/-- An optional token field: present when the approval item defines it
(`JSON.stringify` drops a property whose value is `undefined`). -/
def optField (key : String) (v : Option Json) : List (String × Json) :=
  match v with
  | some x => [(key, x)]
  | none => []

/-- The token payload `Lobster.run` encodes at a halt. -/
def mkRunTokenPayload (r : PipelineResult) (approval : Json) : Json :=
  Json.obj ([("protocolVersion", .num 1), ("v", .num 1),
      ("stageIndex", .num (haltIndexOrNeg r)),
      ("resumeAtIndex", .num (haltIndexOrNeg r + 1))]
    ++ optField "items" (approval.getField "items")
    ++ optField "prompt" (approval.getField "prompt"))

/-- The token payload `Lobster.resume` encodes at a second halt: the relative
halt index re-based by the resume index. -/
def mkResumeTokenPayload (resumeIndex : Int) (r : PipelineResult) (approval : Json) : Json :=
  Json.obj ([("protocolVersion", .num 1), ("v", .num 1),
      ("stageIndex", .num (resumeIndex + haltIndexOrZero r)),
      ("resumeAtIndex", .num (resumeIndex + haltIndexOrZero r + 1))]
    ++ optField "items" (approval.getField "items")
    ++ optField "prompt" (approval.getField "prompt"))

/-- `payload.resumeAtIndex ?? 0`.  A token produced by the SDK always carries a
number here; JavaScript's number coercion of other shapes is not modelled. -/
def resumeIndexOf (payload : Json) : Int :=
  match payload.getField "resumeAtIndex" with
  | some (.num n) => n
  | _ => 0

/-- `payload.items ?? []` fed through the runtime's `toAsyncIterable`:
`undefined`/`null` give no items, an array gives its elements, a string
iterates per character, any other value is a single item. -/
def jsIterableItems (v : Option Json) : List Json :=
  match v with
  | none => []
  | some .null => []
  | some (.arr l) => l
  | some (.str s) => s.data.map (fun c => Json.str (String.mk [c]))
  | some x => [x]

/-- `stages.slice(i)` for a JavaScript index (negative indices count from the
end). -/
def jsSliceFrom (stages : List Stage) (i : Int) : List Stage :=
  stages.drop (if i < 0 then (max ((stages.length : Int) + i) 0).toNat else i.toNat)

/-- `Lobster.run`: run the pipeline; wrap an approval halt into a
`needs_approval` result carrying a continuation token; catch stage errors. -/
def Lobster.run (stages : List Stage) (input : List Json) : LobsterResult :=
  match runPipelineInternal stages input with
  | .error msg => ⟨false, .error, [], none, some ⟨"runtime_error", msg⟩⟩
  | .ok r =>
    if approvalHalt r then
      let approval := r.items.headD .null
      ⟨true, .needsApproval, [],
        some ⟨approval.getField "prompt", approval.getField "items",
          encodeToken (mkRunTokenPayload r approval)⟩, none⟩
    else ⟨true, .ok, r.items, none, none⟩

/-- `Lobster.resume`: `approved = false` returns a cancelled result before the
token is even decoded; otherwise decode (an invalid token throws out of
`resume`, which the `Except` models), slice the stage list at the resume
index, and re-enter the engine.  A second approval halt yields a re-based
token. -/
def Lobster.resume (stages : List Stage) (token : String) (approved : Bool) :
    Except TokenError LobsterResult :=
  if !approved then .ok ⟨true, .cancelled, [], none, none⟩
  else
    match decodeToken token with
    | .error e => .error e
    | .ok payload =>
      let resumeIndex := resumeIndexOf payload
      let resumeItems := jsIterableItems (payload.getField "items")
      match runPipelineInternal (jsSliceFrom stages resumeIndex) resumeItems with
      | .error msg => .ok ⟨false, .error, [], none, some ⟨"runtime_error", msg⟩⟩
      | .ok r =>
        if approvalHalt r then
          let approval := r.items.headD .null
          .ok ⟨true, .needsApproval, [],
            some ⟨approval.getField "prompt", approval.getField "items",
              encodeToken (mkResumeTokenPayload resumeIndex r approval)⟩, none⟩
        else .ok ⟨true, .ok, r.items, none, none⟩

/-! ## The `approve` command (`src/commands/stdlib/approve.ts`) -/

structure ApproveArgs where
  prompt : Option String
  emit : Bool

structure ApproveCtx where
  mode : String
  stdinIsTTY : Bool
  stdinLine : String

/-- The interactive confirmation test `/^y(es)?$/i` on the trimmed answer. -/
def yesAnswer (answer : String) : Bool :=
  answer.trim.toLower = "y" || answer.trim.toLower = "yes"

/-- `approveCommand.run`: drain the input; in emit mode (explicit `--emit`,
tool mode, or a non-interactive stdin) halt with a single `approval_request`
item wrapping the drained items; interactively, pass the items through on a
yes answer and raise `Not approved` otherwise. -/
def approveRun (args : ApproveArgs) (ctx : ApproveCtx) (input : List Json) :
    Except String StageResult :=
  let prompt := args.prompt.getD "Approve?"
  let items := input
  let emit := args.emit || ctx.mode = "tool" || !ctx.stdinIsTTY
  if emit then
    .ok ⟨[Json.obj [("type", .str "approval_request"), ("prompt", .str prompt),
      ("items", .arr items)]], true⟩
  else if yesAnswer ctx.stdinLine then .ok ⟨items, false⟩
  else .error "Not approved"

/-- The SDK `approve` primitive (`src/sdk/primitives/approve.ts`): always
halts with one `approval_request` item. -/
def approvePrimitive (prompt : String) (preview : Bool) : Stage :=
  fun items =>
    .ok ⟨[Json.obj [("type", .str "approval_request"), ("prompt", .str prompt),
      ("items", .arr (if preview then items else [])),
      ("itemCount", .num items.length)]], true⟩

/-! ## SHA-256 (`createHash('sha256')`)

A direct implementation over `Nat` words reduced mod 2^32, hashing the UTF-8
bytes of the input string to a lowercase 64-character hex digest. -/

/-- 32-bit right rotation. -/
def rotr32 (k x : Nat) : Nat := ((x >>> k) ||| (x <<< (32 - k))) % 4294967296

/-- The SHA-256 round constants. -/
def sha256K : Array Nat := #[
  1116352408, 1899447441, 3049323471, 3921009573, 961987163, 1508970993,
  2453635748, 2870763221, 3624381080, 310598401, 607225278, 1426881987,
  1925078388, 2162078206, 2614888103, 3248222580, 3835390401, 4022224774,
  264347078, 604807628, 770255983, 1249150122, 1555081692, 1996064986,
  2554220882, 2821834349, 2952996808, 3210313671, 3336571891, 3584528711,
  113926993, 338241895, 666307205, 773529912, 1294757372, 1396182291,
  1695183700, 1986661051, 2177026350, 2456956037, 2730485921, 2820302411,
  3259730800, 3345764771, 3516065817, 3600352804, 4094571909, 275423344,
  430227734, 506948616, 659060556, 883997877, 958139571, 1322822218,
  1537002063, 1747873779, 1955562222, 2024104815, 2227730452, 2361852424,
  2428436474, 2756734187, 3204031479, 3329325298]

/-- Pad a byte message to a multiple of 64 bytes (0x80, zeros, 64-bit length). -/
def sha256Pad (msg : List Nat) : List Nat :=
  let bitLen := msg.length * 8
  let zeros := (119 - msg.length % 64) % 64
  msg ++ [128] ++ List.replicate zeros 0 ++
    [bitLen >>> 56 % 256, bitLen >>> 48 % 256, bitLen >>> 40 % 256, bitLen >>> 32 % 256,
     bitLen >>> 24 % 256, bitLen >>> 16 % 256, bitLen >>> 8 % 256, bitLen % 256]

/-- Big-endian 32-bit words of a (4-dividing) byte list. -/
def bytesToWords : List Nat → List Nat
  | a :: b :: c :: d :: rest => (a * 16777216 + b * 65536 + c * 256 + d) :: bytesToWords rest
  | _ => []

/-- Extend 16 message-schedule words to 64. -/
def sha256Extend (w : Array Nat) : Array Nat :=
  (List.range 48).foldl
    (fun a k =>
      let i := k + 16
      let x15 := a.getD (i - 15) 0
      let x2 := a.getD (i - 2) 0
      let s0 := rotr32 7 x15 ^^^ rotr32 18 x15 ^^^ (x15 >>> 3)
      let s1 := rotr32 17 x2 ^^^ rotr32 19 x2 ^^^ (x2 >>> 10)
      a.push ((a.getD (i - 16) 0 + s0 + a.getD (i - 7) 0 + s1) % 4294967296))
    w

/-- The eight working variables of the compression loop. -/
structure Sha256State where
  a : Nat
  b : Nat
  c : Nat
  d : Nat
  e : Nat
  f : Nat
  g : Nat
  h : Nat

/-- One compression round. -/
def sha256Round (w : Array Nat) (st : Sha256State) (i : Nat) : Sha256State :=
  let s1 := rotr32 6 st.e ^^^ rotr32 11 st.e ^^^ rotr32 25 st.e
  let ch := (st.e &&& st.f) ^^^ ((st.e ^^^ 4294967295) &&& st.g)
  let t1 := (st.h + s1 + ch + sha256K.getD i 0 + w.getD i 0) % 4294967296
  let s0 := rotr32 2 st.a ^^^ rotr32 13 st.a ^^^ rotr32 22 st.a
  let mj := (st.a &&& st.b) ^^^ (st.a &&& st.c) ^^^ (st.b &&& st.c)
  let t2 := (s0 + mj) % 4294967296
  ⟨(t1 + t2) % 4294967296, st.a, st.b, st.c, (st.d + t1) % 4294967296, st.e, st.f, st.g⟩

/-- Compress one 64-byte block into the running hash value. -/
def sha256Block (hs : List Nat) (block : List Nat) : List Nat :=
  let w := sha256Extend (bytesToWords block).toArray
  match hs with
  | [h0, h1, h2, h3, h4, h5, h6, h7] =>
    let st := (List.range 64).foldl (sha256Round w) ⟨h0, h1, h2, h3, h4, h5, h6, h7⟩
    [(h0 + st.a) % 4294967296, (h1 + st.b) % 4294967296, (h2 + st.c) % 4294967296,
     (h3 + st.d) % 4294967296, (h4 + st.e) % 4294967296, (h5 + st.f) % 4294967296,
     (h6 + st.g) % 4294967296, (h7 + st.h) % 4294967296]
  | _ => hs

/-- Split a padded message into 64-byte blocks. -/
def chunk64 (bs : List Nat) : List (List Nat) :=
  if _h : bs.length < 64 then []
  else bs.take 64 :: chunk64 (bs.drop 64)
termination_by bs.length
decreasing_by
  simp only [List.length_drop]
  omega

/-- SHA-256 of a byte message, as the eight 32-bit hash words. -/
def sha256Words (msg : List Nat) : List Nat :=
  (chunk64 (sha256Pad msg)).foldl sha256Block
    [0x6a09e667, 0xbb67ae85, 0x3c6ef372, 0xa54ff53a, 0x510e527f, 0x9b05688c, 0x1f83d9ab, 0x5be0cd19]

/-- Lowercase hex of one 32-bit word. -/
def wordHex (w : Nat) : List Char :=
  [hexChar (w >>> 28 % 16), hexChar (w >>> 24 % 16), hexChar (w >>> 20 % 16),
   hexChar (w >>> 16 % 16), hexChar (w >>> 12 % 16), hexChar (w >>> 8 % 16),
   hexChar (w >>> 4 % 16), hexChar (w % 16)]

/-- `createHash('sha256').update(s).digest('hex')` for a string (hashed over
its UTF-8 bytes). -/
def sha256hex (s : String) : String :=
  String.mk ((sha256Words (utf8Encode s.data)).map wordHex).flatten

/-! ## Canonical stringification (`stableStringify`)

Modelled from the spec: `llm_task.invoke` imports `stableStringify` from
`src/state/store.js`, which is not among the provided sources.  Spec §4.5
requires "a canonical form with object keys sorted recursively", and the
repository carries an identically-named helper in `src/sdk/primitives/diff.ts`
(`JSON.stringify` with a replacer that sorts every object's keys); the model
below follows both: recursively sort all object keys, then stringify. -/

/-- Lexicographic code-unit comparison of character lists (the default
`Array.prototype.sort` string order). -/
def strLtChars : List Char → List Char → Bool
  | [], [] => false
  | [], _ :: _ => true
  | _ :: _, [] => false
  | a :: as, b :: bs =>
    if a.toNat < b.toNat then true
    else if b.toNat < a.toNat then false
    else strLtChars as bs

/-- String comparison for the key sort. -/
def strLtB (a b : String) : Bool := strLtChars a.data b.data

/-- Insert a field into a key-sorted field list. -/
def insertField (p : String × Json) : List (String × Json) → List (String × Json)
  | [] => [p]
  | q :: rest => if strLtB q.1 p.1 then q :: insertField p rest else p :: q :: rest

/-- Sort fields by key (insertion sort; keys of a JavaScript object are
distinct, so stability is immaterial). -/
def sortFields : List (String × Json) → List (String × Json)
  | [] => []
  | p :: rest => insertField p (sortFields rest)

mutual

/-- Recursively sort every object's keys. -/
def canonJson : Json → Json
  | .null => .null
  | .bool b => .bool b
  | .num n => .num n
  | .str s => .str s
  | .arr es => .arr (canonList es)
  | .obj fs => .obj (sortFields (canonFields fs))

def canonList : List Json → List Json
  | [] => []
  | e :: es => canonJson e :: canonList es

def canonFields : List (String × Json) → List (String × Json)
  | [] => []
  | (k, v) :: fs => (k, canonJson v) :: canonFields fs

end

/-- `stableStringify`: stringify the canonical (recursively key-sorted) form. -/
def stableStringify (j : Json) : String := Json.stringify (canonJson j)

/-! ## `llm_task.invoke` (`src/commands/stdlib/llm_task_invoke.ts`)

The model starts where the command has extracted its typed inputs (transport
URLs, prompt, model, schema version, parsed metadata / output schema, flags);
the CLI string parsing of those values is outside the embedding.  The ajv
validator compiled from the caller's output contract, and its error formatter,
enter as function parameters (`ajv` is an external library); the two concrete
schemas the command compiles at load time (`payloadSchema`, `responseSchema`)
are implemented directly.  File writes (`persistOutputs`, `writeCacheEntry`)
are not tracked: no claim depends on them. -/

/-- `normalizeArtifact`. -/
def normalizeArtifact (raw : Json) : Json :=
  match raw with
  | .obj fs => .obj fs
  | .str s => .obj [("kind", .str "text"), ("text", .str s)]
  | .num n => .obj [("kind", .str "text"), ("text", .str (toString n))]
  | .bool b => .obj [("kind", .str "text"), ("text", .str (if b then "true" else "false"))]
  | x => .obj [("kind", .str "json"), ("data", x)]

/-- `hashArtifact`. -/
def hashArtifact (artifact : Json) : String := sha256hex (stableStringify artifact)

structure CacheKeyInput where
  prompt : String
  model : String
  schemaVersion : String
  artifactHashes : List String
  outputSchema : Option Json

/-- `computeCacheKey`: SHA-256 of the stable stringification of the five
semantically relevant fields (`model` falling back to `clawd-default` when
empty, `outputSchema` to `null` when absent). -/
def computeCacheKey (x : CacheKeyInput) : String :=
  sha256hex (stableStringify (Json.obj [
    ("prompt", .str x.prompt),
    ("model", .str (if x.model = "" then "clawd-default" else x.model)),
    ("schemaVersion", .str x.schemaVersion),
    ("artifactHashes", .arr (x.artifactHashes.map .str)),
    ("outputSchema", x.outputSchema.getD .null)]))

/-- Does `j.key` hold exactly the string `val` (JavaScript `===`)? -/
def jsonFieldIsStr (j : Json) (key val : String) : Bool :=
  match j.getField key with
  | some (.str s) => s = val
  | _ => false

/-- `pickReusableState`: a stored run-state record is reused only when it is a
`llm_task.invoke` record whose stored `cacheKey` equals the freshly derived
key and which carries an items array. -/
def pickReusableState (stored : Option Json) (cacheKey : String) : Option (List Json) :=
  match stored with
  | none => none
  | some j =>
    if !jsonFieldIsStr j "type" "llm_task.invoke" then none
    else if !jsonFieldIsStr j "cacheKey" cacheKey then none
    else
      match j.getField "items" with
      | some (.arr l) => some l
      | _ => none

/-- Overwrite-or-append one property (JavaScript object spread followed by an
explicit property). -/
def objSet (fs : List (String × Json)) (key : String) (v : Json) : List (String × Json) :=
  if fs.any (fun p => p.1 = key) then fs.map (fun p => if p.1 = key then (key, v) else p)
  else fs ++ [(key, v)]

/-- `{ ...item, k1: v1, k2: v2 }` (a non-object spreads to no properties). -/
def jsSpread2 (item : Json) (k1 : String) (v1 : Json) (k2 : String) (v2 : Json) : Json :=
  match item with
  | .obj fs => .obj (objSet (objSet fs k1 v1) k2 v2)
  | _ => .obj (objSet (objSet [] k1 v1) k2 v2)

/-- JavaScript truthiness of a possibly-absent value. -/
def jsTruthy : Option Json → Bool
  | none => false
  | some .null => false
  | some (.bool b) => b
  | some (.num n) => n != 0
  | some (.str s) => s ≠ ""
  | some (.arr _) => true
  | some (.obj _) => true

/-- `v ?? null`. -/
def orNull (v : Option Json) : Json := v.getD .null

def isStringJ : Json → Bool
  | .str _ => true
  | _ => false

def isNumberJ : Json → Bool
  | .num _ => true
  | _ => false

def isBoolJ : Json → Bool
  | .bool _ => true
  | _ => false

def isObjectJ : Json → Bool
  | .obj _ => true
  | _ => false

def isStrArrayJ : Json → Bool
  | .arr l => l.all isStringJ
  | _ => false

/-- An optional property: absent, or present and satisfying `p` (how ajv
treats a `properties` entry that is not `required`). -/
def optProp (j : Json) (k : String) (p : Json → Bool) : Bool :=
  match j.getField k with
  | none => true
  | some v => p v

/-- Are all of an object's keys among `ks` (`additionalProperties: false`)? -/
def keysAmong (j : Json) (ks : List String) : Bool :=
  match j with
  | .obj fs => fs.all (fun p => ks.contains p.1)
  | _ => false

/-- The `artifacts` item schema. -/
def artifactOk (a : Json) : Bool :=
  isObjectJ a && optProp a "kind" isStringJ && optProp a "role" isStringJ &&
    optProp a "name" isStringJ && optProp a "mimeType" isStringJ &&
    optProp a "text" isStringJ && optProp a "uri" isStringJ

/-- The `retryContext` schema. -/
def retryContextOk (r : Json) : Bool :=
  isObjectJ r && optProp r "attempt" isNumberJ &&
    optProp r "validationErrors" isStrArrayJ &&
    keysAmong r ["attempt", "validationErrors"]

/-- `validatePayload` (the compiled `payloadSchema`). -/
def payloadOk (p : Json) : Bool :=
  isObjectJ p &&
  (match p.getField "prompt" with
   | some (.str s) => s.length ≥ 1
   | _ => false) &&
  optProp p "model" (fun v =>
    match v with
    | .str s => s.length ≥ 1
    | _ => false) &&
  (match p.getField "artifacts" with
   | some (.arr l) => l.all artifactOk
   | _ => false) &&
  (match p.getField "artifactHashes" with
   | some (.arr l) =>
     l.all (fun h =>
       match h with
       | .str s => s.length ≥ 10
       | _ => false)
   | _ => false) &&
  optProp p "schemaVersion" isStringJ &&
  optProp p "metadata" isObjectJ &&
  optProp p "outputSchema" isObjectJ &&
  optProp p "temperature" isNumberJ &&
  optProp p "maxOutputTokens" isNumberJ &&
  optProp p "retryContext" retryContextOk &&
  keysAmong p ["prompt", "model", "artifacts", "artifactHashes", "schemaVersion",
    "metadata", "outputSchema", "temperature", "maxOutputTokens", "retryContext"]

/-- The inner `output` schema of a response. -/
def outputShapeOk (o : Json) : Bool :=
  isObjectJ o && optProp o "text" isStringJ && optProp o "format" isStringJ

/-- The `usage` schema of a response. -/
def usageOk (u : Json) : Bool :=
  isObjectJ u && optProp u "inputTokens" isNumberJ &&
    optProp u "outputTokens" isNumberJ && optProp u "totalTokens" isNumberJ

/-- The `result` schema of a response (requires an `output` object). -/
def resultShapeOk (r : Json) : Bool :=
  isObjectJ r &&
  (match r.getField "output" with
   | some o => outputShapeOk o
   | none => false) &&
  optProp r "runId" isStringJ && optProp r "model" isStringJ &&
  optProp r "prompt" isStringJ && optProp r "status" isStringJ &&
  optProp r "usage" usageOk && optProp r "warnings" isStrArrayJ &&
  optProp r "metadata" isObjectJ && optProp r "diagnostics" isObjectJ

/-- `validateResponseEnvelope` (the compiled `responseSchema`): requires a
boolean `ok`; `result` and `error`, when present, must fit their shapes. -/
def envelopeOk (e : Json) : Bool :=
  isObjectJ e &&
  (match e.getField "ok" with
   | some v => isBoolJ v
   | none => false) &&
  optProp e "result" resultShapeOk && optProp e "error" isObjectJ

/-- `new Date().toISOString()` and the transport endpoint live in the ambient
world; the transport function maps the request payload to the parsed response
envelope (`.error` models a thrown request failure). -/
structure InvokeWorld where
  runState : Option Json
  cache : String → Option Json
  transport : Json → Except String Json
  now : String

/-- The command's typed inputs after CLI extraction. -/
structure InvokeArgs where
  url : String
  clawdUrl : String
  prompt : String
  model : String
  schemaVersion : String
  metadata : Option Json
  outputSchema : Option Json
  maxValidationRetriesRaw : Option Int
  maxOutputTokens : Option Int
  temperature : Option Int
  disableCache : Bool
  refresh : Bool
  stateKey : Option String
  providedArtifacts : List Json

/-- The typed failures of an invocation (the command's distinct throw sites).
`cacheEntryInvalid` models the uncaught TypeError raised when a cache file
lacks an `items` array. -/
inductive InvokeError where
  | configMissing
  | promptMissing
  | modelMissing
  | payloadInvalid
  | cacheEntryInvalid
  | requestFailed (msg : String)
  | invalidEnvelope
  | remoteError (msg : String)
  | schemaValidationFailed (errors : List String)

/-- The produced items together with how many transport calls were made. -/
structure InvokeOutcome where
  items : List Json
  transportCalls : Nat

/-- `Math.max(0, raw ?? DEFAULT_MAX_VALIDATION_RETRIES)` when an output schema
is present, `0` otherwise. -/
def maxValidationRetriesOf (outputSchema : Option Json) (raw : Option Int) : Nat :=
  match outputSchema with
  | none => 0
  | some _ => (max 0 (raw.getD 1)).toNat

/-- The request payload, with properties in the order the command assigns
them (an absent optional value contributes no property). -/
def buildPayload (args : InvokeArgs) (normalizedArtifacts : List Json)
    (hashes : List String) : Json :=
  Json.obj ([("prompt", .str args.prompt)]
    ++ (if args.model = "" then [] else [("model", .str args.model)])
    ++ [("artifacts", .arr normalizedArtifacts),
        ("artifactHashes", .arr (hashes.map .str))]
    ++ (match args.metadata with
        | some m => [("metadata", m)]
        | none => [])
    ++ (match args.outputSchema with
        | some s => [("outputSchema", s)]
        | none => [])
    ++ (if args.schemaVersion = "" then [] else [("schemaVersion", .str args.schemaVersion)])
    ++ (match args.maxOutputTokens with
        | some n => [("maxOutputTokens", .num n)]
        | none => [])
    ++ (match args.temperature with
        | some t => [("temperature", .num t)]
        | none => []))

/-- `payload.retryContext = { attempt, validationErrors? }` (set on retries). -/
def setRetryContext (payload : Json) (attempt : Nat) (errs : List String) : Json :=
  match payload with
  | .obj fs =>
    .obj (objSet fs "retryContext"
      (Json.obj ([("attempt", .num attempt)]
        ++ (if errs.isEmpty then [] else [("validationErrors", .arr (errs.map .str))]))))
  | x => x

/-- `normalizeResult`: one canonical item per response, with the field layout
of `NormalizedInvocationItem`.  A non-string `status` cannot survive envelope
validation, so JavaScript's `String()` coercion is not modelled. -/
def normalizeResult (envelope : Json) (cacheKey schemaVersion : String)
    (hashes : List String) (sourceTag : String) (now : String) (attempt : Nat) :
    List Json :=
  let result :=
    match envelope.getField "result" with
    | none => Json.obj []
    | some .null => Json.obj []
    | some x => x
  let output :=
    match result.getField "output" with
    | none => Json.obj []
    | some .null => Json.obj []
    | some x => x
  [Json.obj [
    ("kind", .str "llm_task.invoke"),
    ("runId", orNull (result.getField "runId")),
    ("prompt", orNull (result.getField "prompt")),
    ("model", orNull (result.getField "model")),
    ("schemaVersion", .str schemaVersion),
    ("status",
      match result.getField "status" with
      | some (.str s) => .str s
      | _ => .str "completed"),
    ("cacheKey", .str cacheKey),
    ("artifactHashes", .arr (hashes.map .str)),
    ("output", Json.obj [
      ("format",
        match output.getField "format" with
        | some (.str f) => .str f
        | _ => if jsTruthy (output.getField "data") then .str "json" else .str "text"),
      ("text", orNull (output.getField "text")),
      ("data", orNull (output.getField "data"))]),
    ("usage", orNull (result.getField "usage")),
    ("metadata", orNull (result.getField "metadata")),
    ("warnings", orNull (result.getField "warnings")),
    ("diagnostics", orNull (result.getField "diagnostics")),
    ("createdAt", .str now),
    ("source", .str sourceTag),
    ("cached", .bool (sourceTag ≠ "remote" && sourceTag ≠ "clawd")),
    ("attemptCount", .num attempt)]]

/-- `responseEnvelope.error?.message ?? 'llm-task returned an error'`. -/
def remoteErrorMsg (envelope : Json) : String :=
  match (orNull (envelope.getField "error")).getField "message" with
  | some (.str m) => m
  | _ => "llm-task returned an error"

/-- The `while (true)` validation-retry loop, entered at `attempt`: issue the
call, validate the envelope, check the remote `ok`, normalize; with an output
contract, accept a valid structured result, and otherwise retry until
`attempt > maxValidationRetries + 1`. -/
def invokeLoop (validate : Json → Json → Bool) (errorsOf : Json → Json → List String)
    (world : InvokeWorld) (basePayload : Json) (schemaOpt : Option Json)
    (cacheKey schemaVersion : String) (hashes : List String) (sourceTag : String)
    (maxRetries : Nat) (attempt : Nat) (lastErrors : List String) :
    Except InvokeError InvokeOutcome :=
  let payload := if attempt ≤ 1 then basePayload else setRetryContext basePayload attempt lastErrors
  match world.transport payload with
  | .error msg => .error (.requestFailed msg)
  | .ok envelope =>
    if !envelopeOk envelope then .error .invalidEnvelope
    else if !(jsTruthy (envelope.getField "ok") &&
        (match envelope.getField "ok" with
         | some (.bool true) => true
         | _ => false)) then .error (.remoteError (remoteErrorMsg envelope))
    else
      let normalized := normalizeResult envelope cacheKey schemaVersion hashes sourceTag world.now attempt
      match schemaOpt with
      | none => .ok ⟨normalized, attempt⟩
      | some schema =>
        let out := orNull ((normalized.headD .null).getField "output")
        let structured := orNull (out.getField "data")
        if validate schema structured then .ok ⟨normalized, attempt⟩
        else
          let errs := errorsOf schema structured
          if h : maxRetries + 1 < attempt then .error (.schemaValidationFailed errs)
          else invokeLoop validate errorsOf world basePayload schemaOpt cacheKey
            schemaVersion hashes sourceTag maxRetries (attempt + 1) errs
termination_by maxRetries + 2 - attempt
decreasing_by omega

/-- `llmTaskInvokeCommand.run`, from the point where its typed inputs exist:
transport selection and argument guards, artifact normalization and hashing,
cache-key derivation, the run-state tier, the cache tier, payload validation,
and the retry loop. -/
def llmTaskInvoke (validate : Json → Json → Bool) (errorsOf : Json → Json → List String)
    (args : InvokeArgs) (world : InvokeWorld) (inputArtifacts : List Json) :
    Except InvokeError InvokeOutcome :=
  let direct := args.url ≠ ""
  if args.url = "" ∧ args.clawdUrl = "" then .error .configMissing
  else if args.prompt = "" then .error .promptMissing
  else if args.model = "" ∧ direct then .error .modelMissing
  else
    let normalizedArtifacts := (inputArtifacts ++ args.providedArtifacts).map normalizeArtifact
    let hashes := normalizedArtifacts.map hashArtifact
    let cacheKey := computeCacheKey
      ⟨args.prompt, args.model, args.schemaVersion, hashes, args.outputSchema⟩
    let stateHit : Option (List Json) :=
      match args.stateKey with
      | none => none
      | some _ => if args.refresh then none else pickReusableState world.runState cacheKey
    match stateHit with
    | some items =>
      .ok ⟨items.map (fun it => jsSpread2 it "source" (.str "run_state") "cached" (.bool true)), 0⟩
    | none =>
      match (if args.disableCache || args.refresh then none else world.cache cacheKey) with
      | some entry =>
        match entry.getField "items" with
        | some (.arr l) =>
          .ok ⟨l.map (fun it => jsSpread2 it "source" (.str "cache") "cached" (.bool true)), 0⟩
        | _ => .error .cacheEntryInvalid
      | none =>
        let payload := buildPayload args normalizedArtifacts hashes
        if !payloadOk payload then .error .payloadInvalid
        else invokeLoop validate errorsOf world payload args.outputSchema cacheKey
          args.schemaVersion hashes (if direct then "remote" else "clawd")
          (maxValidationRetriesOf args.outputSchema args.maxValidationRetriesRaw) 1 []

/-- The cache key the command derives for a call (lines 248–250 of the
source: normalize the artifacts, hash each, feed `computeCacheKey`). -/
def runDerivedKey (args : InvokeArgs) (inputArtifacts : List Json) : String :=
  computeCacheKey ⟨args.prompt, args.model, args.schemaVersion,
    ((inputArtifacts ++ args.providedArtifacts).map normalizeArtifact).map hashArtifact,
    args.outputSchema⟩

/-! ## Concrete fixtures used by the witness theorems -/

/-- A pass-through stage. -/
def passStage : Stage := fun items => .ok ⟨items, false⟩

/-- A source stage emitting two numbered items. -/
def sourceStage : Stage := fun _ => .ok ⟨[Json.num 10, Json.num 20], false⟩

/-- A halting stage (a gate) with fixed output. -/
def haltStage : Stage := fun _ => .ok ⟨[Json.str "pending"], true⟩

/-- A failing stage. -/
def failStage : Stage := fun _ => .error "boom"

/-- A pass-through CLI command. -/
def cmdPass : CliCommand := fun _ items => .ok ⟨items, false, false⟩

/-- A halting CLI command. -/
def cmdHalt : CliCommand := fun _ items => .ok ⟨[Json.obj [("held", .arr items)]], true, false⟩

/-- A failing CLI command. -/
def cmdFail : CliCommand := fun _ _ => .error "cli-boom"

/-- A three-command demo registry. -/
def demoRegistry : String → Option CliCommand := fun n =>
  if n = "pass" then some cmdPass
  else if n = "halt" then some cmdHalt
  else if n = "fail" then some cmdFail
  else none

/-- An approval gate built from the SDK primitive. -/
def demoGate : Stage := approvePrimitive "ok?" true

/-- A two-gate workflow: chained halts for the resume re-basing witness. -/
def twoGateStages : List Stage := [demoGate, demoGate]

/-- `llm_task.invoke` arguments for the run-state reuse witness. -/
def wArgsState : InvokeArgs :=
  { url := "http://llm.example", clawdUrl := "", prompt := "summarize", model := "model-a",
    schemaVersion := "v1", metadata := none, outputSchema := none,
    maxValidationRetriesRaw := none, maxOutputTokens := none, temperature := none,
    disableCache := false, refresh := false, stateKey := some "run123", providedArtifacts := [] }

/-- A stored run-state record whose `cacheKey` matches the derived key. -/
def wStoredMatch : Json :=
  Json.obj [("type", .str "llm_task.invoke"), ("version", .num 1),
    ("cacheKey", .str (runDerivedKey wArgsState [])),
    ("items", .arr [Json.obj [("kind", .str "llm_task.invoke"), ("source", .str "remote"),
      ("cached", .bool false)]]),
    ("storedAt", .str "2026-01-01T00:00:00Z")]

/-- A world holding that record; the transport is unreachable. -/
def wWorldState : InvokeWorld :=
  { runState := some wStoredMatch, cache := fun _ => none,
    transport := fun _ => .error "transport should not be called", now := "2026-01-02T00:00:00Z" }

/-- An output contract requiring a `decision` property. -/
def wContract : Json :=
  Json.obj [("type", .str "object"), ("required", .arr [.str "decision"])]

/-- The same contract with its keys written in the other order. -/
def wContractReordered : Json :=
  Json.obj [("required", .arr [.str "decision"]), ("type", .str "object")]

/-- The compiled validator the fixtures use for `wContract`. -/
def wValidate : Json → Json → Bool := fun _ structured =>
  (structured.getField "decision").isSome

/-- The error formatter the fixtures use. -/
def wErrorsOf : Json → Json → List String := fun _ _ =>
  ["/ must have required property decision"]

/-- First response envelope: structurally valid, fails the contract. -/
def wEnvInvalid : Json :=
  Json.obj [("ok", .bool true), ("result", Json.obj [("runId", .str "attempt_1"),
    ("output", Json.obj [("data", Json.obj [("foo", .str "bar")])])])]

/-- Second response envelope: satisfies the contract. -/
def wEnvValid : Json :=
  Json.obj [("ok", .bool true), ("result", Json.obj [("runId", .str "attempt_2"),
    ("output", Json.obj [("data", Json.obj [("decision", .str "send")])])])]

/-- `llm_task.invoke` arguments for the retry-bound scenario: an output
contract and `max-validation-retries = 0`. -/
def wArgsRetry : InvokeArgs :=
  { url := "http://llm.example", clawdUrl := "", prompt := "decide", model := "model-a",
    schemaVersion := "v1", metadata := none, outputSchema := some wContract,
    maxValidationRetriesRaw := some 0, maxOutputTokens := none, temperature := none,
    disableCache := false, refresh := false, stateKey := none, providedArtifacts := [] }

/-- A transport that fails the contract on the first attempt (no
`retryContext` on the payload) and satisfies it on the retry. -/
def wWorldRetry : InvokeWorld :=
  { runState := none, cache := fun _ => none,
    transport := fun payload =>
      match payload.getField "retryContext" with
      | none => .ok wEnvInvalid
      | some _ => .ok wEnvValid,
    now := "2026-01-02T00:00:00Z" }

/-- Cache-key determinism witness arguments (first call). -/
def wArgsKeyA : InvokeArgs :=
  { url := "http://llm.example", clawdUrl := "", prompt := "classify", model := "model-a",
    schemaVersion := "v2", metadata := some (Json.obj [("run", .str "alpha"), ("seq", .num 1)]),
    outputSchema := some wContract,
    maxValidationRetriesRaw := none, maxOutputTokens := none, temperature := none,
    disableCache := false, refresh := false, stateKey := none, providedArtifacts := [] }

/-- Cache-key determinism witness arguments (second call): different metadata,
reordered contract keys, same five semantic fields. -/
def wArgsKeyB : InvokeArgs :=
  { url := "http://llm.example", clawdUrl := "", prompt := "classify", model := "model-a",
    schemaVersion := "v2", metadata := some (Json.obj [("seq", .num 2), ("run", .str "beta"),
      ("extra", .bool true)]),
    outputSchema := some wContractReordered,
    maxValidationRetriesRaw := none, maxOutputTokens := none, temperature := none,
    disableCache := false, refresh := false, stateKey := none, providedArtifacts := [] }

/-- The single approval item the demo gate emits on empty input. -/
def wApprovalItem : Json :=
  Json.obj [("type", .str "approval_request"), ("prompt", .str "ok?"),
    ("items", .arr []), ("itemCount", .num 0)]

/-- The engine result of the two-gate workflow on empty input: the first gate
halts at index 0. -/
def wHaltResult : PipelineResult := ⟨[wApprovalItem], true, some 0⟩

/-- The token payload of that first halt. -/
def wRunTokenPayload : Json := mkRunTokenPayload wHaltResult wApprovalItem

/-- The approval info `Lobster.run` produces on the two-gate workflow (the
first gate halts at index 0). -/
def wRunInfo : ApprovalInfo :=
  (Lobster.run twoGateStages []).requiresApproval.getD ⟨none, none, ""⟩

/-- The payload decoded from that first token. -/
def wRunPayload : Json :=
  match decodeToken wRunInfo.resumeToken with
  | .ok p => p
  | .error _ => .null

/-- The result of resuming the two-gate workflow with the first token (the
second gate halts again). -/
def wResumeResult : LobsterResult :=
  match Lobster.resume twoGateStages wRunInfo.resumeToken true with
  | .ok res => res
  | .error _ => ⟨false, .error, [], none, none⟩

/-- The approval info of that second halt. -/
def wResumeInfo : ApprovalInfo :=
  wResumeResult.requiresApproval.getD ⟨none, none, ""⟩

/-- The engine result of the sliced re-entry performed by that resume. -/
def wResumePipeline : PipelineResult :=
  match runPipelineInternal (jsSliceFrom twoGateStages (resumeIndexOf wRunPayload))
      (jsIterableItems (wRunPayload.getField "items")) with
  | .ok r => r
  | .error _ => ⟨[], false, none⟩

/-! # Theorems

Everything from here on is a lemma or a claim theorem about the definitions
above. -/

/-! ## Engine composition lemmas -/

/-- A prefix that runs without halting composes: the whole pipeline continues
with the remaining stages on the prefix output, indices shifted. -/
theorem runStages_append {pre : List Stage} {idx : Nat} {input x : List Json}
    (h : runStages pre idx input = .ok ⟨x, false, none⟩) (rest : List Stage) :
    runStages (pre ++ rest) idx input = runStages rest (idx + pre.length) x := by
  induction pre generalizing idx input with
  | nil =>
    simp only [runStages, Except.ok.injEq, PipelineResult.mk.injEq, and_true] at h
    subst h
    simp [runStages]
  | cons s pre ih =>
    rw [List.cons_append]
    simp only [runStages] at h ⊢
    cases hs : s input with
    | error e => rw [hs] at h; simp at h
    | ok r =>
      rw [hs] at h
      by_cases hh : r.halt = true
      · simp only [hh, if_true] at h
        simp at h
      · simp only [hh, if_false, Bool.false_eq_true, ite_false] at h ⊢
        have harith : idx + 1 + pre.length = idx + (s :: pre).length := by
          simp [List.length_cons]; omega
        rw [ih h, harith]

theorem runStages_no_gate {stages : List Stage} {input : List Json} {idx : Nat}
    (h : ∀ s ∈ stages, ∀ x r, s x = .ok r → r.halt = false) :
    runStages stages idx input =
      (chainStages stages input).map (fun out => ⟨out, false, none⟩) := by
  induction stages generalizing input idx with
  | nil => simp [runStages, chainStages, Except.map]
  | cons s rest ih =>
    simp only [runStages, chainStages]
    cases hs : s input with
    | error e => simp [Except.map]
    | ok r =>
      have hf := h s (by simp) input r hs
      simp only [hf, Bool.false_eq_true, if_false, ite_false]
      exact ih (fun s2 hs2 => h s2 (by simp [hs2]))

theorem runCliStages_append {registry : String → Option CliCommand}
    {pre : List CliStage} {idx : Nat} {input x : List Json} {ren0 ren : Bool}
    (h : runCliStages registry pre idx input ren0 = .ok ⟨x, ren, false, none⟩)
    (rest : List CliStage) :
    runCliStages registry (pre ++ rest) idx input ren0 =
      runCliStages registry rest (idx + pre.length) x ren := by
  induction pre generalizing idx input ren0 with
  | nil =>
    simp only [runCliStages, Except.ok.injEq, CliPipelineResult.mk.injEq, and_true] at h
    obtain ⟨rfl, rfl⟩ := h
    simp [runCliStages]
  | cons st pre ih =>
    rw [List.cons_append]
    simp only [runCliStages] at h ⊢
    cases hreg : registry st.name with
    | none => rw [hreg] at h; simp at h
    | some cmd =>
      rw [hreg] at h
      dsimp only at h ⊢
      cases hs : cmd st.args input with
      | error e => rw [hs] at h; simp at h
      | ok r =>
        rw [hs] at h
        dsimp only at h ⊢
        by_cases hh : r.halt = true
        · simp only [hh, if_true] at h
          simp at h
        · simp only [hh, Bool.false_eq_true, if_false, ite_false] at h ⊢
          have harith : idx + 1 + pre.length = idx + (st :: pre).length := by
            simp [List.length_cons]; omega
          rw [ih h, harith]

theorem runCliStages_no_gate {registry : String → Option CliCommand}
    {pipeline : List CliStage} {input : List Json} {idx : Nat} {ren : Bool}
    (h : ∀ st ∈ pipeline, ∀ cmd, registry st.name = some cmd →
      ∀ a x r, cmd a x = .ok r → r.halt = false) :
    runCliStages registry pipeline idx input ren =
      (chainCliStages registry pipeline input ren).map (fun p => ⟨p.1, p.2, false, none⟩) := by
  induction pipeline generalizing input idx ren with
  | nil => simp [runCliStages, chainCliStages, Except.map]
  | cons st rest ih =>
    simp only [runCliStages, chainCliStages]
    cases hreg : registry st.name with
    | none => simp [Except.map]
    | some cmd =>
      dsimp only
      cases hs : cmd st.args input with
      | error e => simp [Except.map]
      | ok r =>
        have hf := h st (by simp) cmd hreg st.args input r hs
        dsimp only
        simp only [hf, Bool.false_eq_true, if_false, ite_false]
        exact ih (fun st2 hst2 => h st2 (by simp [hst2]))

theorem claim_c2_halt_short_circuit_and_no_gate :
    (∀ (pre : List Stage) (s : Stage) (post : List Stage) (input x : List Json)
        (res : StageResult),
      runPipelineInternal pre input = .ok ⟨x, false, none⟩ →
      s x = .ok res → res.halt = true →
      runPipelineInternal (pre ++ s :: post) input =
        .ok ⟨res.output, true, some pre.length⟩) ∧
    (∀ (stages : List Stage) (input : List Json),
      (∀ s ∈ stages, ∀ x r, s x = .ok r → r.halt = false) →
      runPipelineInternal stages input =
        (chainStages stages input).map (fun out => ⟨out, false, none⟩)) ∧
    (∀ (registry : String → Option CliCommand) (pre : List CliStage) (st : CliStage)
        (post : List CliStage) (input x : List Json) (ren : Bool)
        (cmd : CliCommand) (r : CliStageResult),
      runPipeline registry pre input = .ok ⟨x, ren, false, none⟩ →
      registry st.name = some cmd → cmd st.args x = .ok r → r.halt = true →
      runPipeline registry (pre ++ st :: post) input =
        .ok ⟨r.output, ren || r.rendered, true, some (pre.length, st)⟩) ∧
    (∀ (registry : String → Option CliCommand) (pipeline : List CliStage)
        (input : List Json),
      (∀ st ∈ pipeline, ∀ cmd, registry st.name = some cmd →
        ∀ a x r, cmd a x = .ok r → r.halt = false) →
      runPipeline registry pipeline input =
        (chainCliStages registry pipeline input false).map
          (fun p => ⟨p.1, p.2, false, none⟩)) := by
  refine ⟨?_, ?_, ?_, ?_⟩
  · intro pre s post input x res hpre hs hhalt
    unfold runPipelineInternal at hpre ⊢
    rw [runStages_append hpre (s :: post)]
    simp only [runStages, hs, Nat.zero_add, hhalt, if_pos]
  · intro stages input h
    exact runStages_no_gate h
  · intro registry pre st post input x ren cmd r hpre hreg hs hhalt
    unfold runPipeline at hpre ⊢
    rw [runCliStages_append hpre (st :: post)]
    simp only [runCliStages, hreg, hs, Nat.zero_add, hhalt, if_pos]
  · intro registry pipeline input h
    exact runCliStages_no_gate h

theorem claim_c2_witness :
    runPipelineInternal ([passStage] ++ haltStage :: [failStage]) [Json.num 7] =
      .ok ⟨[Json.str "pending"], true, some 1⟩ ∧
    runPipelineInternal [passStage, sourceStage] [] =
      (chainStages [passStage, sourceStage] []).map (fun out => ⟨out, false, none⟩) ∧
    runPipeline demoRegistry ([⟨"pass", .null⟩] ++ ⟨"halt", .null⟩ :: [⟨"fail", .null⟩]) [] =
      .ok ⟨[Json.obj [("held", .arr [])]], false || false, true, some (1, ⟨"halt", .null⟩)⟩ ∧
    runPipeline demoRegistry [⟨"pass", .null⟩, ⟨"pass", .null⟩] [Json.num 3] =
      (chainCliStages demoRegistry [⟨"pass", .null⟩, ⟨"pass", .null⟩] [Json.num 3] false).map
        (fun p => ⟨p.1, p.2, false, none⟩) := by
  refine ⟨?_, ?_, ?_, ?_⟩
  · exact claim_c2_halt_short_circuit_and_no_gate.1 [passStage] haltStage [failStage]
      [Json.num 7] [Json.num 7] ⟨[Json.str "pending"], true⟩ rfl rfl rfl
  · refine claim_c2_halt_short_circuit_and_no_gate.2.1 [passStage, sourceStage] [] ?_
    intro s hs x r hr
    rcases (by simpa using hs : s = passStage ∨ s = sourceStage) with rfl | rfl
    · simp only [passStage, Except.ok.injEq] at hr
      rw [← hr]
    · simp only [sourceStage, Except.ok.injEq] at hr
      rw [← hr]
  · exact claim_c2_halt_short_circuit_and_no_gate.2.2.1 demoRegistry [⟨"pass", .null⟩]
      ⟨"halt", .null⟩ [⟨"fail", .null⟩] [] [] false cmdHalt
      ⟨[Json.obj [("held", .arr [])]], true, false⟩ rfl rfl rfl rfl
  · refine claim_c2_halt_short_circuit_and_no_gate.2.2.2 demoRegistry
      [⟨"pass", .null⟩, ⟨"pass", .null⟩] [Json.num 3] ?_
    intro st hst cmd hreg a x r hr
    rcases (by simpa using hst : st = (⟨"pass", .null⟩ : CliStage) ∨ st = ⟨"pass", .null⟩) with rfl | rfl <;>
    · simp only [demoRegistry, if_pos] at hreg
      rw [show cmd = cmdPass from by simpa using hreg.symm] at hr
      simp only [cmdPass, Except.ok.injEq] at hr
      rw [← hr]

/-- **C8.** A stage error terminates the invocation immediately: the engine
does not catch it — the run evaluates to exactly that error for any suffix of
later stages (none execute, and no items accompany the error) — and the SDK
entry points surface it as an error result with empty output, never partial
items alongside an error. -/
theorem claim_c8_error_propagation :
    (∀ (pre : List Stage) (s : Stage) (post : List Stage) (input x : List Json) (e : String),
      runPipelineInternal pre input = .ok ⟨x, false, none⟩ →
      s x = .error e →
      runPipelineInternal (pre ++ s :: post) input = .error e) ∧
    (∀ (registry : String → Option CliCommand) (pre : List CliStage) (st : CliStage)
        (post : List CliStage) (input x : List Json) (ren : Bool) (cmd : CliCommand) (e : String),
      runPipeline registry pre input = .ok ⟨x, ren, false, none⟩ →
      registry st.name = some cmd → cmd st.args x = .error e →
      runPipeline registry (pre ++ st :: post) input = .error e) ∧
    (∀ (pre : List Stage) (s : Stage) (post : List Stage) (input x : List Json) (e : String),
      runPipelineInternal pre input = .ok ⟨x, false, none⟩ →
      s x = .error e →
      Lobster.run (pre ++ s :: post) input =
        ⟨false, .error, [], none, some ⟨"runtime_error", e⟩⟩) ∧
    (∀ (stages : List Stage) (token : String) (payload : Json) (e : String),
      decodeToken token = .ok payload →
      runPipelineInternal (jsSliceFrom stages (resumeIndexOf payload))
        (jsIterableItems (payload.getField "items")) = .error e →
      Lobster.resume stages token true =
        .ok ⟨false, .error, [], none, some ⟨"runtime_error", e⟩⟩) := by
  have hmain : ∀ (pre : List Stage) (s : Stage) (post : List Stage)
      (input x : List Json) (e : String),
      runPipelineInternal pre input = .ok ⟨x, false, none⟩ →
      s x = .error e →
      runPipelineInternal (pre ++ s :: post) input = .error e := by
    intro pre s post input x e hpre hs
    unfold runPipelineInternal at hpre ⊢
    rw [runStages_append hpre (s :: post)]
    simp only [runStages, hs]
  refine ⟨hmain, ?_, ?_, ?_⟩
  · intro registry pre st post input x ren cmd e hpre hreg hs
    unfold runPipeline at hpre ⊢
    rw [runCliStages_append hpre (st :: post)]
    simp only [runCliStages, hreg, hs]
  · intro pre s post input x e hpre hs
    unfold Lobster.run
    rw [hmain pre s post input x e hpre hs]
  · intro stages token payload e hdec hrun
    unfold Lobster.resume
    rw [hdec]
    dsimp only
    rw [hrun]
    simp

/-- Witness for C8 at concrete pipelines: a failing second stage makes both
engines evaluate to the raised error with a never-reached third stage, and
`Lobster.run`/`Lobster.resume` convert it to an error result with empty
output. -/
theorem claim_c8_witness :
    runPipelineInternal ([passStage] ++ failStage :: [haltStage]) [] = .error "boom" ∧
    runPipeline demoRegistry ([⟨"pass", .null⟩] ++ ⟨"fail", .null⟩ :: [⟨"halt", .null⟩]) [] =
      .error "cli-boom" ∧
    Lobster.run ([passStage] ++ failStage :: [haltStage]) [] =
      ⟨false, .error, [], none, some ⟨"runtime_error", "boom"⟩⟩ ∧
    Lobster.resume [failStage] "e30" true =
      .ok ⟨false, .error, [], none, some ⟨"runtime_error", "boom"⟩⟩ := by
  refine ⟨?_, ?_, ?_, ?_⟩
  · exact claim_c8_error_propagation.1 [passStage] failStage [haltStage] [] [] "boom" rfl rfl
  · exact claim_c8_error_propagation.2.1 demoRegistry [⟨"pass", .null⟩] ⟨"fail", .null⟩
      [⟨"halt", .null⟩] [] [] false cmdFail "cli-boom" rfl rfl rfl
  · exact claim_c8_error_propagation.2.2.1 [passStage] failStage [haltStage] [] [] "boom" rfl rfl
  · exact claim_c8_error_propagation.2.2.2 [failStage] "e30" (Json.obj []) "boom" rfl rfl

/-- **C9.** For every token and workflow, `resume` with `approved = false`
returns the cancelled result (`ok = true`, status `cancelled`, empty output)
without decoding the token or executing any stage — the result is the same
for every stage list and every token string, decodable or not — and calling
it again with the same arguments yields the same cancelled result. -/
theorem claim_c9_resume_not_approved :
    ∀ (stages stages2 : List Stage) (token token2 : String),
      Lobster.resume stages token false = .ok ⟨true, .cancelled, [], none, none⟩ ∧
      Lobster.resume stages token false = Lobster.resume stages2 token2 false := by
  intro stages stages2 token token2
  exact ⟨rfl, rfl⟩

/-- **C10.** Whenever the `approve` command runs with `ctx.mode = 'tool'`, or
a non-interactive stdin, or the `--emit` flag, it halts — for every input,
including the empty one — and its output is exactly one
`{ type: 'approval_request', prompt, items }` item whose `items` are the
drained input items in their original order; no input item passes through. -/
theorem claim_c10_approve_emits_and_halts :
    ∀ (args : ApproveArgs) (ctx : ApproveCtx) (input : List Json),
      (ctx.mode = "tool" ∨ ctx.stdinIsTTY = false ∨ args.emit = true) →
      approveRun args ctx input =
        .ok ⟨[Json.obj [("type", .str "approval_request"),
          ("prompt", .str (args.prompt.getD "Approve?")),
          ("items", .arr input)]], true⟩ := by
  intro args ctx input h
  unfold approveRun
  rcases h with h | h | h <;> simp [h]

/-- Witness for C10: tool mode with a TTY stdin and no `--emit`, on a
two-item input and on the empty input. -/
theorem claim_c10_witness :
    approveRun ⟨none, false⟩ ⟨"tool", true, "y"⟩ [Json.num 1, Json.num 2] =
      .ok ⟨[Json.obj [("type", .str "approval_request"),
        ("prompt", .str "Approve?"),
        ("items", .arr [Json.num 1, Json.num 2])]], true⟩ ∧
    approveRun ⟨some "Send?", false⟩ ⟨"human", false, ""⟩ [] =
      .ok ⟨[Json.obj [("type", .str "approval_request"),
        ("prompt", .str "Send?"), ("items", .arr [])]], true⟩ := by
  exact ⟨claim_c10_approve_emits_and_halts ⟨none, false⟩ ⟨"tool", true, "y"⟩
      [Json.num 1, Json.num 2] (Or.inl rfl),
    claim_c10_approve_emits_and_halts ⟨some "Send?", false⟩ ⟨"human", false, ""⟩
      [] (Or.inr (Or.inl rfl))⟩

/-- A matching stored record is reused. -/
theorem pickReusableState_hit {stored : Json} {key : String} {l : List Json}
    (htype : stored.getField "type" = some (.str "llm_task.invoke"))
    (hck : stored.getField "cacheKey" = some (.str key))
    (hitems : stored.getField "items" = some (.arr l)) :
    pickReusableState (some stored) key = some l := by
  unfold pickReusableState
  simp [jsonFieldIsStr, htype, hck, hitems]

/-- A stored record whose `cacheKey` is not the derived key is never reused. -/
theorem pickReusableState_key_mismatch {stored : Json} {key : String}
    (h : stored.getField "cacheKey" ≠ some (.str key)) :
    pickReusableState (some stored) key = none := by
  unfold pickReusableState
  have hk : jsonFieldIsStr stored "cacheKey" key = false := by
    unfold jsonFieldIsStr
    cases hc : stored.getField "cacheKey" with
    | none => rfl
    | some v =>
      cases v with
      | str s =>
        simp only [decide_eq_false_iff_not]
        intro rfl2
        exact h (by rw [hc, rfl2])
      | null => rfl
      | bool b => rfl
      | num n => rfl
      | arr es => rfl
      | obj fs => rfl
  by_cases ht : jsonFieldIsStr stored "type" "llm_task.invoke" <;> simp [ht, hk]

/-- **C5.** With a state key set and `refresh` unset, a stored run-state
record of type `llm_task.invoke` carrying an items array and a `cacheKey`
equal to the freshly derived key makes the call return exactly the stored
items re-tagged `source = 'run_state'`, `cached = true`, with zero transport
calls; and a stored record whose `cacheKey` differs from the derived key is
never reused. -/
theorem claim_c5_run_state_reuse :
    (∀ (validate : Json → Json → Bool) (errorsOf : Json → Json → List String)
        (args : InvokeArgs) (world : InvokeWorld) (inputArtifacts : List Json)
        (k : String) (stored : Json) (l : List Json),
      ¬(args.url = "" ∧ args.clawdUrl = "") →
      args.prompt ≠ "" →
      ¬(args.model = "" ∧ args.url ≠ "") →
      args.stateKey = some k →
      args.refresh = false →
      world.runState = some stored →
      stored.getField "type" = some (.str "llm_task.invoke") →
      stored.getField "cacheKey" = some (.str (runDerivedKey args inputArtifacts)) →
      stored.getField "items" = some (.arr l) →
      llmTaskInvoke validate errorsOf args world inputArtifacts =
        .ok ⟨l.map (fun it => jsSpread2 it "source" (.str "run_state") "cached" (.bool true)), 0⟩) ∧
    (∀ (stored : Json) (key : String),
      stored.getField "cacheKey" ≠ some (.str key) →
      pickReusableState (some stored) key = none) := by
  constructor
  · intro validate errorsOf args world inputArtifacts k stored l h1 h2 h3 hkey href hstate
      htype hck hitems
    unfold llmTaskInvoke
    rw [if_neg h1, if_neg h2, if_neg (by intro hc; exact h3 ⟨hc.1, hc.2⟩)]
    have hpick : pickReusableState world.runState
        (computeCacheKey ⟨args.prompt, args.model, args.schemaVersion,
          ((inputArtifacts ++ args.providedArtifacts).map normalizeArtifact).map hashArtifact,
          args.outputSchema⟩) = some l := by
      rw [hstate]
      exact pickReusableState_hit htype hck hitems
    rw [hkey]
    dsimp only
    rw [href]
    simp only [Bool.false_eq_true, if_false, ite_false, hpick]
  · intro stored key h
    exact pickReusableState_key_mismatch h

/-- Witness for C5: a concrete matching run-state record is returned re-tagged
with zero transport calls (against a world whose transport always fails); a
record keyed under a different cache key is not reused. -/
theorem claim_c5_witness :
    llmTaskInvoke wValidate wErrorsOf wArgsState wWorldState [] =
      .ok ⟨[jsSpread2 (Json.obj [("kind", .str "llm_task.invoke"),
        ("source", .str "remote"), ("cached", .bool false)])
        "source" (.str "run_state") "cached" (.bool true)], 0⟩ ∧
    pickReusableState
      (some (Json.obj [("type", .str "llm_task.invoke"), ("cacheKey", .str "other-key"),
        ("items", .arr [])])) "fresh-key" = none := by
  constructor
  · exact claim_c5_run_state_reuse.1 wValidate wErrorsOf wArgsState wWorldState []
      "run123" wStoredMatch
      [Json.obj [("kind", .str "llm_task.invoke"), ("source", .str "remote"),
        ("cached", .bool false)]]
      (by simp [wArgsState]) (by simp [wArgsState]) (by simp [wArgsState])
      rfl rfl rfl rfl rfl rfl
  · exact claim_c5_run_state_reuse.2 _ "fresh-key"
      (by simp [Json.getField, fieldLookup])

/-- **C7.** The derived cache key is a function of prompt, model, schema
version, artifact hashes and output contract only, computed over a canonical
form with object keys sorted recursively: two calls identical in those five
fields (the contract up to key order) derive equal keys, whatever their
metadata. -/
theorem claim_c7_cache_key_determinism :
    ∀ (a1 a2 : InvokeArgs) (inputArtifacts : List Json),
      a1.prompt = a2.prompt → a1.model = a2.model → a1.schemaVersion = a2.schemaVersion →
      a1.providedArtifacts = a2.providedArtifacts →
      Option.map canonJson a1.outputSchema = Option.map canonJson a2.outputSchema →
      runDerivedKey a1 inputArtifacts = runDerivedKey a2 inputArtifacts := by
  intro a1 a2 arts hp hm hsv hart hos
  have hcan : canonJson (a1.outputSchema.getD .null) = canonJson (a2.outputSchema.getD .null) := by
    cases h1 : a1.outputSchema <;> cases h2 : a2.outputSchema <;>
      rw [h1, h2] at hos <;> simp_all
  unfold runDerivedKey computeCacheKey stableStringify
  rw [hp, hm, hsv, hart]
  simp only [canonJson, canonFields, canonList]
  rw [hcan]

/-- Witness for C7: two calls with the same prompt/model/schema-version/
artifacts and the same contract written with reordered keys, but different
metadata, derive the same cache key. -/
theorem claim_c7_witness :
    runDerivedKey wArgsKeyA [] = runDerivedKey wArgsKeyB [] :=
  claim_c7_cache_key_determinism wArgsKeyA wArgsKeyB [] rfl rfl rfl rfl (by rfl)

/-- **C6** (code bug, exhibited): with an output contract, a transport whose
structured result fails the contract on attempt 1 and satisfies it on attempt
2 (`N = 1`), and `max-validation-retries = N - 1 = 0`, the claim and spec
§4.7/§8 require the call to exhaust its retries and fail with a
schema-validation error; the code instead issues attempt `N + 1` and succeeds
(`attempt > maxValidationRetries + 1` tolerates one extra failed attempt), so
the call returns with two transport calls and `attemptCount = 2`. -/
theorem claim_c6_retry_off_by_one :
    (llmTaskInvoke wValidate wErrorsOf wArgsRetry wWorldRetry []).map
      (fun o => (o.transportCalls, o.items.map (fun it => it.getField "attemptCount"))) =
    .ok (2, [some (.num 2)]) := by
  have h1 : llmTaskInvoke wValidate wErrorsOf wArgsRetry wWorldRetry [] =
      invokeLoop wValidate wErrorsOf wWorldRetry (buildPayload wArgsRetry [] [])
        (some wContract)
        (computeCacheKey ⟨wArgsRetry.prompt, wArgsRetry.model, wArgsRetry.schemaVersion, [],
          wArgsRetry.outputSchema⟩)
        wArgsRetry.schemaVersion [] "remote"
        (maxValidationRetriesOf wArgsRetry.outputSchema wArgsRetry.maxValidationRetriesRaw)
        1 [] := rfl
  have step1 :
      invokeLoop wValidate wErrorsOf wWorldRetry (buildPayload wArgsRetry [] [])
        (some wContract)
        (computeCacheKey ⟨wArgsRetry.prompt, wArgsRetry.model, wArgsRetry.schemaVersion, [],
          wArgsRetry.outputSchema⟩)
        wArgsRetry.schemaVersion [] "remote"
        (maxValidationRetriesOf wArgsRetry.outputSchema wArgsRetry.maxValidationRetriesRaw)
        1 [] =
      invokeLoop wValidate wErrorsOf wWorldRetry (buildPayload wArgsRetry [] [])
        (some wContract)
        (computeCacheKey ⟨wArgsRetry.prompt, wArgsRetry.model, wArgsRetry.schemaVersion, [],
          wArgsRetry.outputSchema⟩)
        wArgsRetry.schemaVersion [] "remote"
        (maxValidationRetriesOf wArgsRetry.outputSchema wArgsRetry.maxValidationRetriesRaw)
        2 ["/ must have required property decision"] := by
    rw [invokeLoop.eq_def]
    rfl
  have step2 :
      invokeLoop wValidate wErrorsOf wWorldRetry (buildPayload wArgsRetry [] [])
        (some wContract)
        (computeCacheKey ⟨wArgsRetry.prompt, wArgsRetry.model, wArgsRetry.schemaVersion, [],
          wArgsRetry.outputSchema⟩)
        wArgsRetry.schemaVersion [] "remote"
        (maxValidationRetriesOf wArgsRetry.outputSchema wArgsRetry.maxValidationRetriesRaw)
        2 ["/ must have required property decision"] =
      .ok ⟨normalizeResult wEnvValid
        (computeCacheKey ⟨wArgsRetry.prompt, wArgsRetry.model, wArgsRetry.schemaVersion, [],
          wArgsRetry.outputSchema⟩)
        wArgsRetry.schemaVersion [] "remote" wWorldRetry.now 2, 2⟩ := by
    rw [invokeLoop.eq_def]
    rfl
  rw [h1, step1, step2]
  rfl

/-! ## Number round trip -/

theorem decDigit_toNat (n : Nat) : (decDigit n).toNat = 48 + n % 10 := by
  have h : n % 10 < 10 := Nat.mod_lt _ (by omega)
  unfold decDigit
  interval_cases h2 : n % 10 <;> simp [h2]

theorem isDigitChar_decDigit (n : Nat) : isDigitChar (decDigit n) = true := by
  simp only [isDigitChar, decDigit_toNat, Bool.and_eq_true, decide_eq_true_eq]
  omega

theorem natChars_acc (n : Nat) : ∀ acc, natChars n acc = natChars n [] ++ acc := by
  induction n using Nat.strong_induction_on with
  | _ n ih =>
    intro acc
    conv_lhs => rw [natChars.eq_def]
    conv_rhs => rw [natChars.eq_def]
    by_cases h : n < 10
    · simp [h]
    · rw [if_neg h, if_neg h, ih (n / 10) (Nat.div_lt_self (by omega) (by omega)),
        ih (n / 10) (Nat.div_lt_self (by omega) (by omega)) [decDigit n]]
      simp

theorem natChars_unfold (n : Nat) :
    natChars n [] = (if n < 10 then [] else natChars (n / 10) []) ++ [decDigit n] := by
  conv_lhs => rw [natChars.eq_def]
  by_cases h : n < 10
  · simp [h]
  · rw [if_neg h, if_neg h, natChars_acc (n / 10) [decDigit n]]

theorem natChars_ne_nil (n : Nat) : natChars n [] ≠ [] := by
  rw [natChars_unfold]
  simp

theorem natChars_digits (n : Nat) : ∀ c ∈ natChars n [], isDigitChar c = true := by
  induction n using Nat.strong_induction_on with
  | _ n ih =>
    rw [natChars_unfold]
    intro c hc
    rw [List.mem_append] at hc
    rcases hc with hc | hc
    · by_cases h : n < 10
      · simp [h] at hc
      · exact ih (n / 10) (Nat.div_lt_self (by omega) (by omega)) c (by simpa [h] using hc)
    · rw [List.mem_singleton] at hc
      subst hc
      exact isDigitChar_decDigit n

theorem digitsVal_natChars (n : Nat) : digitsVal (natChars n []) = n := by
  induction n using Nat.strong_induction_on with
  | _ n ih =>
    rw [natChars_unfold]
    unfold digitsVal
    rw [List.foldl_append]
    by_cases h : n < 10
    · simp only [if_pos h, List.foldl_nil, List.foldl_cons, decDigit_toNat]
      omega
    · simp only [if_neg h, List.foldl_cons, List.foldl_nil, decDigit_toNat]
      have := ih (n / 10) (Nat.div_lt_self (by omega) (by omega))
      unfold digitsVal at this
      rw [this]
      omega

theorem takeWhile_digit_run {ds rest : List Char}
    (hds : ∀ c ∈ ds, isDigitChar c = true) (hrest : digitSafe rest = true) :
    (ds ++ rest).takeWhile isDigitChar = ds ∧ (ds ++ rest).dropWhile isDigitChar = rest := by
  induction ds with
  | nil =>
    cases rest with
    | nil => simp
    | cons c t =>
      simp only [digitSafe, Bool.not_eq_true'] at hrest
      simp [List.takeWhile, List.dropWhile, hrest]
  | cons c t ih =>
    have hc : isDigitChar c = true := hds c (by simp)
    have := ih (fun x hx => hds x (by simp [hx]))
    simp [List.takeWhile, List.dropWhile, hc, this.1, this.2]

theorem parseNatNum_natChars (n : Nat) {rest : List Char} (hrest : digitSafe rest = true) :
    parseNatNum (natChars n [] ++ rest) = some (n, rest) := by
  obtain ⟨ht, hd⟩ := takeWhile_digit_run (natChars_digits n) hrest
  unfold parseNatNum
  rw [ht, hd]
  simp [natChars_ne_nil, List.isEmpty_iff, digitsVal_natChars]

theorem digit_head_facts {c : Char} (h : isDigitChar c = true) :
    c ≠ '-' ∧ isWsChar c = false ∧ c ≠ 'n' ∧ c ≠ 't' ∧ c ≠ 'f' ∧ c ≠ qChar ∧
      c ≠ '[' ∧ c ≠ obChar ∧ c ≠ ']' ∧ c ≠ cbChar := by
  refine ⟨?_, ?_, ?_, ?_, ?_, ?_, ?_, ?_, ?_, ?_⟩
  case refine_2 =>
    simp only [isWsChar, Bool.or_eq_false_iff, decide_eq_false_iff_not]
    refine ⟨⟨⟨?_, ?_⟩, ?_⟩, ?_⟩ <;>
      (rintro rfl; simp [isDigitChar, tbChar, nlChar, crChar] at h)
  all_goals rintro rfl; simp [isDigitChar, qChar, obChar, cbChar] at h

theorem parseNumber_intChars (i : Int) {rest : List Char} (hrest : digitSafe rest = true) :
    parseNumber (intChars i ++ rest) = some (i, rest) := by
  unfold intChars
  by_cases hneg : i < 0
  · rw [if_pos hneg]
    simp only [List.cons_append, List.nil_append, List.append_assoc]
    simp only [parseNumber, if_true]
    rw [parseNatNum_natChars i.natAbs hrest]
    simp only [Option.map_some']
    congr 1
    rw [Prod.mk.injEq]
    exact ⟨by omega, rfl⟩
  · rw [if_neg hneg]
    simp only [List.nil_append]
    obtain ⟨c, t, hct⟩ : ∃ c t, natChars i.natAbs [] = c :: t := by
      cases h : natChars i.natAbs [] with
      | nil => exact absurd h (natChars_ne_nil _)
      | cons c t => exact ⟨c, t, rfl⟩
    have hcdig : isDigitChar c = true := by
      have := natChars_digits i.natAbs c
      rw [hct] at this
      exact this (by simp)
    rw [hct]
    simp only [List.cons_append]
    simp only [parseNumber]
    rw [if_neg (digit_head_facts hcdig).1]
    have := @parseNatNum_natChars i.natAbs rest hrest
    rw [hct] at this
    simp only [List.cons_append] at this
    rw [this]
    simp only [Option.map_some']
    congr 1
    rw [Prod.mk.injEq]
    exact ⟨by omega, rfl⟩

theorem hexVal_hexChar (k : Nat) (h : k < 16) : hexVal (hexChar k) = some k := by
  interval_cases k <;> decide

/-! ## String round trip -/

theorem escChar_length_pos (c : Char) : 1 ≤ (escChar c).length := by
  unfold escChar
  repeat' split
  all_goals simp

theorem escBody_length (cs : List Char) :
    cs.length ≤ ((cs.map escChar).flatten).length := by
  induction cs with
  | nil => simp
  | cons c t ih =>
    simp only [List.map_cons, List.flatten_cons, List.length_append, List.length_cons]
    have := escChar_length_pos c
    omega

theorem readEscape_u00 (c : Char) (h : c.toNat < 32) (rest : List Char) :
    readEscape ('u' :: '0' :: '0' :: hexChar (c.toNat / 16) :: hexChar (c.toNat % 16) :: rest)
      = some (c, rest) := by
  have h1 : hexVal (hexChar (c.toNat / 16)) = some (c.toNat / 16) :=
    hexVal_hexChar _ (by omega)
  have h2 : hexVal (hexChar (c.toNat % 16)) = some (c.toNat % 16) :=
    hexVal_hexChar _ (by omega)
  have hval : hexVal '0' = some 0 := by decide
  simp only [readEscape, if_pos rfl, if_true, readUEscape, readHex4, hexQuad, h1, h2, hval,
    Option.map_some']
  have heq : ((0 * 16 + 0) * 16 + c.toNat / 16) * 16 + c.toNat % 16 = c.toNat := by omega
  rw [heq]
  rw [if_pos (by simp only [Bool.or_eq_true, decide_eq_true_eq]; omega :
    (decide (c.toNat < 55296) || decide (57343 < c.toNat)) = true)]
  rw [Char.ofNat_toNat]

theorem parseStrBody_step (c : Char) (f : Nat) (acc rest : List Char) :
    parseStrBody (f + 1) acc (escChar c ++ rest) = parseStrBody f (c :: acc) rest := by
  by_cases h1 : c = qChar
  · subst h1; rfl
  by_cases h2 : c = bsChar
  · subst h2; rfl
  by_cases h3 : c = bkChar
  · subst h3; rfl
  by_cases h4 : c = tbChar
  · subst h4; rfl
  by_cases h5 : c = nlChar
  · subst h5; rfl
  by_cases h6 : c = ffChar
  · subst h6; rfl
  by_cases h7 : c = crChar
  · subst h7; rfl
  by_cases h8 : c.toNat < 32
  · simp only [escChar, if_neg h1, if_neg h2, if_neg h3, if_neg h4, if_neg h5, if_neg h6,
      if_neg h7, if_pos h8, List.cons_append, List.nil_append]
    rw [parseStrBody.eq_def]
    simp only [if_neg (by decide : ¬(bsChar = qChar)), if_pos rfl]
    rw [readEscape_u00 c h8]
    simp
  · simp only [escChar, if_neg h1, if_neg h2, if_neg h3, if_neg h4, if_neg h5, if_neg h6,
      if_neg h7, if_neg h8, List.cons_append, List.nil_append]
    rw [parseStrBody.eq_def]
    simp only [if_neg h1, if_neg h2, if_neg h8]

theorem parseStrBody_closes (cs : List Char) : ∀ f acc rest, cs.length < f →
    parseStrBody f acc ((cs.map escChar).flatten ++ qChar :: rest)
      = some (String.mk (acc.reverse ++ cs), rest) := by
  induction cs with
  | nil =>
    intro f acc rest hf
    obtain ⟨g, rfl⟩ : ∃ g, f = g + 1 := ⟨f - 1, by omega⟩
    simp only [List.map_nil, List.flatten_nil, List.nil_append, List.append_nil]
    rfl
  | cons c t ih =>
    intro f acc rest hf
    obtain ⟨g, rfl⟩ : ∃ g, f = g + 1 := ⟨f - 1, by omega⟩
    rw [List.map_cons, List.flatten_cons, List.append_assoc, parseStrBody_step,
      ih g (c :: acc) rest (by simp at hf; omega)]
    simp

/-! ## Serializer output parses back: head facts -/

theorem dropWs_cons {c : Char} (h : isWsChar c = false) (cs : List Char) :
    dropWs (c :: cs) = c :: cs := by
  simp [dropWs, h]

theorem jsonChars_head (j : Json) :
    ∃ c t, jsonChars j = c :: t ∧ isWsChar c = false ∧ c ≠ ']' ∧ c ≠ cbChar := by
  cases j with
  | null => refine ⟨'n', _, rfl, ?_, ?_, ?_⟩ <;> decide
  | bool b =>
    cases b with
    | true => refine ⟨'t', _, rfl, ?_, ?_, ?_⟩ <;> decide
    | false => refine ⟨'f', _, rfl, ?_, ?_, ?_⟩ <;> decide
  | num i =>
    by_cases h : i < 0
    · refine ⟨'-', natChars i.natAbs [], ?_, by decide, by decide, by decide⟩
      simp [jsonChars, intChars, h]
    · obtain ⟨c, t, hct⟩ : ∃ c t, natChars i.natAbs [] = c :: t := by
        cases hh : natChars i.natAbs [] with
        | nil => exact absurd hh (natChars_ne_nil _)
        | cons c t => exact ⟨c, t, rfl⟩
      have hd : isDigitChar c = true := by
        have := natChars_digits i.natAbs c
        rw [hct] at this
        exact this (by simp)
      have hfacts := digit_head_facts hd
      refine ⟨c, t, ?_, hfacts.2.1, hfacts.2.2.2.2.2.2.2.2.1, hfacts.2.2.2.2.2.2.2.2.2⟩
      simp [jsonChars, intChars, h, hct]
  | str s => refine ⟨qChar, _, rfl, ?_, ?_, ?_⟩ <;> decide
  | arr es => refine ⟨'[', _, rfl, ?_, ?_, ?_⟩ <;> decide
  | obj fs => refine ⟨obChar, _, rfl, ?_, ?_, ?_⟩ <;> decide

theorem jsonChars_ne_nil (j : Json) : jsonChars j ≠ [] := by
  obtain ⟨c, t, hct, -, -, -⟩ := jsonChars_head j
  simp [hct]

theorem jsonChars_length_pos (j : Json) : 1 ≤ (jsonChars j).length := by
  cases hh : jsonChars j with
  | nil => exact absurd hh (jsonChars_ne_nil j)
  | cons a b => simp

theorem arrayBody_cons_head (e : Json) (t : List Json) :
    ∃ u, arrayBody (e :: t) = jsonChars e ++ u := by
  cases t with
  | nil => exact ⟨[], by simp [arrayBody]⟩
  | cons e2 t2 => exact ⟨',' :: arrayBody (e2 :: t2), rfl⟩

theorem objectBody_cons_head (k : String) (v : Json) (t : List (String × Json)) :
    ∃ u, objectBody ((k, v) :: t) = qChar :: u := by
  cases t with
  | nil =>
    exact ⟨(k.data.map escChar).flatten ++ qChar :: ':' :: jsonChars v,
      by simp [objectBody, quoteStr]⟩
  | cons p t2 =>
    exact ⟨(k.data.map escChar).flatten ++
        qChar :: ':' :: (jsonChars v ++ ',' :: objectBody (p :: t2)),
      by simp [objectBody, quoteStr]⟩

/-! ## The round trip of `JSON.parse` after `JSON.stringify` -/

mutual

theorem rtVal : ∀ (j : Json) (f : Nat) (rest : List Char),
    (jsonChars j).length < f → digitSafe rest = true →
    pVal f (jsonChars j ++ rest) = some (j, rest)
  | .null, f, rest, hf, hrest => by
    obtain ⟨g, rfl⟩ : ∃ g, f = g + 1 := ⟨f - 1, by omega⟩
    rfl
  | .bool true, f, rest, hf, hrest => by
    obtain ⟨g, rfl⟩ : ∃ g, f = g + 1 := ⟨f - 1, by omega⟩
    rfl
  | .bool false, f, rest, hf, hrest => by
    obtain ⟨g, rfl⟩ : ∃ g, f = g + 1 := ⟨f - 1, by omega⟩
    rfl
  | .num i, f, rest, hf, hrest => by
    obtain ⟨g, rfl⟩ : ∃ g, f = g + 1 := ⟨f - 1, by omega⟩
    have hnum := parseNumber_intChars i hrest
    by_cases hneg : i < 0
    · have hshape : jsonChars (Json.num i) ++ rest
          = '-' :: (natChars i.natAbs [] ++ rest) := by
        simp [jsonChars, intChars, hneg]
      have hshape2 : intChars i ++ rest = '-' :: (natChars i.natAbs [] ++ rest) := by
        simp [intChars, hneg]
      rw [hshape]
      rw [hshape2] at hnum
      simp only [pVal]
      rw [dropWs_cons (by decide)]
      dsimp only
      rw [if_neg (by decide : ¬('-' = 'n')), if_neg (by decide : ¬('-' = 't')),
        if_neg (by decide : ¬('-' = 'f')), if_neg (by decide : ¬('-' = qChar)),
        if_neg (by decide : ¬('-' = '[')), if_neg (by decide : ¬('-' = obChar)),
        if_pos (by decide : (decide ('-' = '-') || isDigitChar '-') = true)]
      rw [hnum]
    · obtain ⟨c, t, hct⟩ : ∃ c t, natChars i.natAbs [] = c :: t := by
        cases hh : natChars i.natAbs [] with
        | nil => exact absurd hh (natChars_ne_nil _)
        | cons c t => exact ⟨c, t, rfl⟩
      have hd : isDigitChar c = true := by
        have := natChars_digits i.natAbs c
        rw [hct] at this
        exact this (by simp)
      have hfacts := digit_head_facts hd
      have hshape : jsonChars (Json.num i) ++ rest = c :: (t ++ rest) := by
        simp [jsonChars, intChars, hneg, hct]
      have hshape2 : intChars i ++ rest = c :: (t ++ rest) := by
        simp [intChars, hneg, hct]
      rw [hshape]
      rw [hshape2] at hnum
      simp only [pVal]
      rw [dropWs_cons hfacts.2.1]
      dsimp only
      rw [if_neg hfacts.2.2.1, if_neg hfacts.2.2.2.1, if_neg hfacts.2.2.2.2.1,
        if_neg hfacts.2.2.2.2.2.1, if_neg hfacts.2.2.2.2.2.2.1,
        if_neg hfacts.2.2.2.2.2.2.2.1,
        if_pos (by simp [hd] : (decide (c = '-') || isDigitChar c) = true)]
      rw [hnum]
  | .str s, f, rest, hf, hrest => by
    obtain ⟨g, rfl⟩ : ∃ g, f = g + 1 := ⟨f - 1, by omega⟩
    have hshape : jsonChars (Json.str s) ++ rest
        = qChar :: ((s.data.map escChar).flatten ++ qChar :: rest) := by
      simp [jsonChars, quoteStr]
    rw [hshape]
    simp only [pVal]
    rw [dropWs_cons (by decide : isWsChar qChar = false)]
    dsimp only
    rw [if_neg (by decide : ¬(qChar = 'n')), if_neg (by decide : ¬(qChar = 't')),
      if_neg (by decide : ¬(qChar = 'f')), if_pos rfl]
    rw [parseStrBody_closes s.data _ [] rest (by
      have := escBody_length s.data
      simp only [List.length_append, List.length_cons]
      omega)]
    simp
  | .arr [], f, rest, hf, hrest => by
    obtain ⟨g, rfl⟩ : ∃ g, f = g + 1 := ⟨f - 1, by omega⟩
    rfl
  | .arr (e :: t), f, rest, hf, hrest => by
    obtain ⟨g, rfl⟩ : ∃ g, f = g + 1 := ⟨f - 1, by omega⟩
    obtain ⟨u, hu⟩ := arrayBody_cons_head e t
    obtain ⟨c, tl, hct, hws, hrb, hcb⟩ := jsonChars_head e
    have hfo : (arrayBody (e :: t)).length + 1 < g := by
      simp only [jsonChars, List.length_cons, List.length_append] at hf
      omega
    have hshape : jsonChars (Json.arr (e :: t)) ++ rest
        = '[' :: (arrayBody (e :: t) ++ ']' :: rest) := by
      simp [jsonChars]
    rw [hshape]
    simp only [pVal]
    rw [dropWs_cons (by decide : isWsChar '[' = false)]
    dsimp only
    rw [if_neg (by decide : ¬('[' = 'n')), if_neg (by decide : ¬('[' = 't')),
      if_neg (by decide : ¬('[' = 'f')), if_neg (by decide : ¬('[' = qChar)),
      if_pos rfl]
    have hshape2 : arrayBody (e :: t) ++ ']' :: rest = c :: (tl ++ (u ++ ']' :: rest)) := by
      rw [hu, hct]
      simp
    rw [hshape2, dropWs_cons hws]
    dsimp only
    rw [if_neg hrb, ← hshape2, rtElems (e :: t) (by simp) g rest hfo]
  | .obj [], f, rest, hf, hrest => by
    obtain ⟨g, rfl⟩ : ∃ g, f = g + 1 := ⟨f - 1, by omega⟩
    rfl
  | .obj ((k, v) :: t), f, rest, hf, hrest => by
    obtain ⟨g, rfl⟩ : ∃ g, f = g + 1 := ⟨f - 1, by omega⟩
    obtain ⟨u, hu⟩ := objectBody_cons_head k v t
    have hfo : (objectBody ((k, v) :: t)).length + 1 < g := by
      simp only [jsonChars, List.length_cons, List.length_append] at hf
      omega
    have hshape : jsonChars (Json.obj ((k, v) :: t)) ++ rest
        = obChar :: (objectBody ((k, v) :: t) ++ cbChar :: rest) := by
      simp [jsonChars]
    rw [hshape]
    simp only [pVal]
    rw [dropWs_cons (by decide : isWsChar obChar = false)]
    dsimp only
    rw [if_neg (by decide : ¬(obChar = 'n')), if_neg (by decide : ¬(obChar = 't')),
      if_neg (by decide : ¬(obChar = 'f')), if_neg (by decide : ¬(obChar = qChar)),
      if_neg (by decide : ¬(obChar = '[')), if_pos rfl]
    have hshape2 : objectBody ((k, v) :: t) ++ cbChar :: rest
        = qChar :: (u ++ cbChar :: rest) := by
      rw [hu]
      simp
    rw [hshape2, dropWs_cons (by decide : isWsChar qChar = false)]
    dsimp only
    rw [if_neg (by decide : ¬(qChar = cbChar)), ← hshape2,
      rtFields ((k, v) :: t) (by simp) g rest hfo]
termination_by j _ _ => sizeOf j

theorem rtElems : ∀ (es : List Json), es ≠ [] → ∀ (g : Nat) (rest : List Char),
    (arrayBody es).length + 1 < g →
    pElems g (arrayBody es ++ ']' :: rest) = some (es, rest)
  | [], hne, _, _, _ => absurd rfl hne
  | [e], _, g, rest, hf => by
    obtain ⟨g2, rfl⟩ : ∃ g2, g = g2 + 1 := ⟨g - 1, by omega⟩
    have hfe : (jsonChars e).length < g2 := by
      simp only [arrayBody] at hf
      omega
    simp only [arrayBody]
    simp only [pElems]
    rw [rtVal e g2 (']' :: rest) hfe rfl]
    rfl
  | e :: e2 :: t2, _, g, rest, hf => by
    obtain ⟨g2, rfl⟩ : ∃ g2, g = g2 + 1 := ⟨g - 1, by omega⟩
    have hlen := jsonChars_length_pos e
    have harr : arrayBody (e :: e2 :: t2) = jsonChars e ++ ',' :: arrayBody (e2 :: t2) := rfl
    rw [harr] at hf
    have hfe : (jsonChars e).length < g2 := by
      simp only [List.length_append, List.length_cons] at hf
      omega
    have hfr : (arrayBody (e2 :: t2)).length + 1 < g2 := by
      simp only [List.length_append, List.length_cons] at hf
      omega
    simp only [pElems]
    rw [harr, List.append_assoc, List.cons_append]
    rw [rtVal e g2 (',' :: (arrayBody (e2 :: t2) ++ ']' :: rest)) hfe rfl]
    dsimp only
    rw [dropWs_cons (by decide : isWsChar ',' = false)]
    simp only [rtElems (e2 :: t2) (by simp) g2 rest hfr]
termination_by es => sizeOf es

theorem rtFields : ∀ (fs : List (String × Json)), fs ≠ [] → ∀ (g : Nat) (rest : List Char),
    (objectBody fs).length + 1 < g →
    pFields g (objectBody fs ++ cbChar :: rest) = some (fs, rest)
  | [], hne, _, _, _ => absurd rfl hne
  | [(k, v)], _, g, rest, hf => by
    obtain ⟨g2, rfl⟩ : ∃ g2, g = g2 + 1 := ⟨g - 1, by omega⟩
    have hql : (quoteStr k).length = (k.data.map escChar).flatten.length + 2 := by
      simp [quoteStr]
    have hfv : (jsonChars v).length < g2 := by
      simp only [objectBody, List.length_append, List.length_cons, hql] at hf
      omega
    have hshape : objectBody [(k, v)] ++ cbChar :: rest
        = qChar :: ((k.data.map escChar).flatten ++
            qChar :: (':' :: (jsonChars v ++ cbChar :: rest))) := by
      simp [objectBody, quoteStr]
    rw [hshape]
    simp only [pFields]
    rw [dropWs_cons (by decide : isWsChar qChar = false)]
    dsimp only
    rw [if_pos rfl]
    rw [parseStrBody_closes k.data _ [] _ (by
      have := escBody_length k.data
      simp only [List.length_append, List.length_cons]
      omega)]
    dsimp only
    rw [dropWs_cons (by decide : isWsChar ':' = false)]
    simp only [rtVal v g2 (cbChar :: rest) hfv rfl]
    rw [dropWs_cons (by decide : isWsChar cbChar = false)]
    rfl
  | (k, v) :: p2 :: t2, _, g, rest, hf => by
    obtain ⟨g2, rfl⟩ : ∃ g2, g = g2 + 1 := ⟨g - 1, by omega⟩
    have hql : (quoteStr k).length = (k.data.map escChar).flatten.length + 2 := by
      simp [quoteStr]
    have hjl := jsonChars_length_pos v
    have hob : objectBody ((k, v) :: p2 :: t2)
        = quoteStr k ++ ':' :: (jsonChars v ++ ',' :: objectBody (p2 :: t2)) := rfl
    rw [hob] at hf
    have hfv : (jsonChars v).length < g2 := by
      simp only [List.length_append, List.length_cons, hql] at hf
      omega
    have hfr : (objectBody (p2 :: t2)).length + 1 < g2 := by
      simp only [List.length_append, List.length_cons, hql] at hf
      omega
    have hshape : objectBody ((k, v) :: p2 :: t2) ++ cbChar :: rest
        = qChar :: ((k.data.map escChar).flatten ++
            qChar :: (':' :: (jsonChars v ++
              ',' :: (objectBody (p2 :: t2) ++ cbChar :: rest)))) := by
      rw [hob]
      simp [quoteStr]
    rw [hshape]
    simp only [pFields]
    rw [dropWs_cons (by decide : isWsChar qChar = false)]
    dsimp only
    rw [if_pos rfl]
    rw [parseStrBody_closes k.data _ [] _ (by
      have := escBody_length k.data
      simp only [List.length_append, List.length_cons]
      omega)]
    dsimp only
    rw [dropWs_cons (by decide : isWsChar ':' = false)]
    simp only [rtVal v g2 (',' :: (objectBody (p2 :: t2) ++ cbChar :: rest)) hfv rfl]
    rw [dropWs_cons (by decide : isWsChar ',' = false)]
    simp only [rtFields (p2 :: t2) (by simp) g2 rest hfr]
    rfl
termination_by fs => sizeOf fs

end

theorem parseJsonChars_jsonChars (j : Json) : parseJsonChars (jsonChars j) = some j := by
  unfold parseJsonChars
  have h := rtVal j ((jsonChars j).length + 1) [] (by omega) rfl
  rw [List.append_nil] at h
  rw [h]
  rfl

/-! ## UTF-8 round trip -/

theorem char_toNat_valid (c : Char) :
    c.toNat < 55296 ∨ (57343 < c.toNat ∧ c.toNat < 1114112) := c.valid

theorem utf8Char_length_pos (c : Char) : 1 ≤ (utf8Char c).length := by
  unfold utf8Char
  dsimp only
  split_ifs <;> simp

theorem utf8Encode_length (cs : List Char) : cs.length ≤ (utf8Encode cs).length := by
  induction cs with
  | nil => simp [utf8Encode]
  | cons c t ih =>
    simp only [utf8Encode, List.map_cons, List.flatten_cons, List.length_append,
      List.length_cons] at *
    have := utf8Char_length_pos c
    omega

theorem utf8Encode_bytes_lt (cs : List Char) : ∀ b ∈ utf8Encode cs, b < 256 := by
  intro b hb
  simp only [utf8Encode, List.mem_flatten] at hb
  obtain ⟨l, hl, hbl⟩ := hb
  simp only [List.mem_map] at hl
  obtain ⟨c, -, rfl⟩ := hl
  have hv := char_toNat_valid c
  by_cases h1 : c.toNat < 128
  · simp [utf8Char, h1] at hbl
    omega
  · by_cases h2 : c.toNat < 2048
    · simp [utf8Char, h1, h2] at hbl
      rcases hbl with rfl | rfl <;> omega
    · by_cases h3 : c.toNat < 65536
      · simp [utf8Char, h1, h2, h3] at hbl
        rcases hbl with rfl | rfl | rfl <;> omega
      · simp [utf8Char, h1, h2, h3] at hbl
        rcases hbl with rfl | rfl | rfl | rfl <;> omega

theorem utf8Decode_step (c : Char) (f : Nat) (rest : List Nat) :
    utf8Decode (f + 1) (utf8Char c ++ rest) = (utf8Decode f rest).map (fun cs => c :: cs) := by
  have hv := char_toNat_valid c
  by_cases h1 : c.toNat < 128
  · have hu : utf8Char c = [c.toNat] := by simp [utf8Char, h1]
    rw [hu, List.cons_append, List.nil_append]
    simp only [utf8Decode]
    rw [if_pos h1]
    simp only [Char.ofNat_toNat]
  · by_cases h2 : c.toNat < 2048
    · have hu : utf8Char c = [192 + c.toNat / 64, 128 + c.toNat % 64] := by
        simp [utf8Char, h1, h2]
      have ht : utf8Tail2 (192 + c.toNat / 64) ((128 + c.toNat % 64) :: rest)
          = some (c.toNat, rest) := by
        simp only [utf8Tail2]
        rw [if_pos (by
          simp only [contByte, Bool.and_eq_true, decide_eq_true_eq]
          omega : contByte (128 + c.toNat % 64) = true)]
        have hveq : (192 + c.toNat / 64 - 192) * 64 + (128 + c.toNat % 64 - 128)
            = c.toNat := by omega
        simp only [hveq]
        rw [if_neg (by omega : ¬(c.toNat < 128))]
      rw [hu, List.cons_append, List.cons_append, List.nil_append]
      simp only [utf8Decode]
      rw [if_neg (by omega : ¬(192 + c.toNat / 64 < 128)),
        if_neg (by omega : ¬(192 + c.toNat / 64 < 192)),
        if_pos (by omega : 192 + c.toNat / 64 < 224), ht]
      simp only [Char.ofNat_toNat]
    · by_cases h3 : c.toNat < 65536
      · have hu : utf8Char c
            = [224 + c.toNat / 4096, 128 + c.toNat / 64 % 64, 128 + c.toNat % 64] := by
          simp [utf8Char, h1, h2, h3]
        have ht : utf8Tail3 (224 + c.toNat / 4096)
            ((128 + c.toNat / 64 % 64) :: (128 + c.toNat % 64) :: rest)
            = some (c.toNat, rest) := by
          simp only [utf8Tail3]
          rw [if_pos (by
            simp only [contByte, Bool.and_eq_true, decide_eq_true_eq]
            omega :
              (contByte (128 + c.toNat / 64 % 64) && contByte (128 + c.toNat % 64)) = true)]
          have hveq : (224 + c.toNat / 4096 - 224) * 4096
              + (128 + c.toNat / 64 % 64 - 128) * 64 + (128 + c.toNat % 64 - 128)
              = c.toNat := by omega
          simp only [hveq]
          rw [if_neg (by omega : ¬(c.toNat < 2048))]
          rw [if_neg (by
            simp only [Bool.and_eq_true, decide_eq_true_eq, not_and]
            omega : ¬((decide (55296 ≤ c.toNat) && decide (c.toNat < 57344)) = true))]
        rw [hu, List.cons_append, List.cons_append, List.cons_append, List.nil_append]
        simp only [utf8Decode]
        rw [if_neg (by omega : ¬(224 + c.toNat / 4096 < 128)),
          if_neg (by omega : ¬(224 + c.toNat / 4096 < 192)),
          if_neg (by omega : ¬(224 + c.toNat / 4096 < 224)),
          if_pos (by omega : 224 + c.toNat / 4096 < 240), ht]
        simp only [Char.ofNat_toNat]
      · have hu : utf8Char c
            = [240 + c.toNat / 262144, 128 + c.toNat / 4096 % 64,
               128 + c.toNat / 64 % 64, 128 + c.toNat % 64] := by
          simp [utf8Char, h1, h2, h3]
        have ht : utf8Tail4 (240 + c.toNat / 262144)
            ((128 + c.toNat / 4096 % 64) :: (128 + c.toNat / 64 % 64) :: (128 + c.toNat % 64) :: rest)
            = some (c.toNat, rest) := by
          simp only [utf8Tail4]
          rw [if_pos (by
            simp only [contByte, Bool.and_eq_true, decide_eq_true_eq]
            omega :
              (contByte (128 + c.toNat / 4096 % 64) && contByte (128 + c.toNat / 64 % 64)
                && contByte (128 + c.toNat % 64)) = true)]
          have hveq : (240 + c.toNat / 262144 - 240) * 262144
              + (128 + c.toNat / 4096 % 64 - 128) * 4096
              + (128 + c.toNat / 64 % 64 - 128) * 64 + (128 + c.toNat % 64 - 128)
              = c.toNat := by omega
          simp only [hveq]
          rw [if_neg (by
            simp only [Bool.or_eq_true, decide_eq_true_eq, not_or]
            omega : ¬((decide (c.toNat < 65536) || decide (1114112 ≤ c.toNat)) = true))]
        rw [hu, List.cons_append, List.cons_append, List.cons_append, List.cons_append,
          List.nil_append]
        simp only [utf8Decode]
        rw [if_neg (by omega : ¬(240 + c.toNat / 262144 < 128)),
          if_neg (by omega : ¬(240 + c.toNat / 262144 < 192)),
          if_neg (by omega : ¬(240 + c.toNat / 262144 < 224)),
          if_neg (by omega : ¬(240 + c.toNat / 262144 < 240)),
          if_pos (by omega : 240 + c.toNat / 262144 < 245), ht]
        simp only [Char.ofNat_toNat]

theorem utf8_rt (cs : List Char) : ∀ f, cs.length < f →
    utf8Decode f (utf8Encode cs) = some cs := by
  induction cs with
  | nil =>
    intro f hf
    obtain ⟨g, rfl⟩ : ∃ g, f = g + 1 := ⟨f - 1, by omega⟩
    rfl
  | cons c t ih =>
    intro f hf
    obtain ⟨g, rfl⟩ : ∃ g, f = g + 1 := ⟨f - 1, by omega⟩
    have henc : utf8Encode (c :: t) = utf8Char c ++ utf8Encode t := by
      simp [utf8Encode]
    rw [henc, utf8Decode_step, ih g (by simp at hf; omega)]
    rfl

/-! ## base64url round trip -/

theorem b64ValOf_b64CharOf (v : Nat) (h : v < 64) : b64ValOf (b64CharOf v) = some v := by
  interval_cases v <;> decide

theorem b64_rt : ∀ (bs : List Nat), (∀ b ∈ bs, b < 256) →
    b64Decode (b64Encode bs) = some bs
  | [], _ => rfl
  | [a], h => by
    have ha : a < 256 := h a (by simp)
    have h1 : b64ValOf (b64CharOf (a / 4)) = some (a / 4) :=
      b64ValOf_b64CharOf _ (by omega)
    have h2 : b64ValOf (b64CharOf (a % 4 * 16)) = some (a % 4 * 16) :=
      b64ValOf_b64CharOf _ (by omega)
    simp only [b64Encode, b64Decode, h1, h2]
    have e1 : a / 4 * 4 + a % 4 * 16 / 16 = a := by omega
    rw [e1]
  | [a, b], h => by
    have ha : a < 256 := h a (by simp)
    have hb : b < 256 := h b (by simp)
    have h1 : b64ValOf (b64CharOf (a / 4)) = some (a / 4) :=
      b64ValOf_b64CharOf _ (by omega)
    have h2 : b64ValOf (b64CharOf (a % 4 * 16 + b / 16)) = some (a % 4 * 16 + b / 16) :=
      b64ValOf_b64CharOf _ (by omega)
    have h3 : b64ValOf (b64CharOf (b % 16 * 4)) = some (b % 16 * 4) :=
      b64ValOf_b64CharOf _ (by omega)
    simp only [b64Encode, b64Decode, h1, h2, h3]
    have e1 : a / 4 * 4 + (a % 4 * 16 + b / 16) / 16 = a := by omega
    have e2 : (a % 4 * 16 + b / 16) % 16 * 16 + b % 16 * 4 / 4 = b := by omega
    rw [e1, e2]
  | a :: b :: c :: rest, h => by
    have ha : a < 256 := h a (by simp)
    have hb : b < 256 := h b (by simp)
    have hc : c < 256 := h c (by simp)
    have ih := b64_rt rest (fun x hx => h x (by simp [hx]))
    have h1 : b64ValOf (b64CharOf (a / 4)) = some (a / 4) :=
      b64ValOf_b64CharOf _ (by omega)
    have h2 : b64ValOf (b64CharOf (a % 4 * 16 + b / 16)) = some (a % 4 * 16 + b / 16) :=
      b64ValOf_b64CharOf _ (by omega)
    have h3 : b64ValOf (b64CharOf (b % 16 * 4 + c / 64)) = some (b % 16 * 4 + c / 64) :=
      b64ValOf_b64CharOf _ (by omega)
    have h4 : b64ValOf (b64CharOf (c % 64)) = some (c % 64) :=
      b64ValOf_b64CharOf _ (by omega)
    simp only [b64Encode, b64Decode, h1, h2, h3, h4, ih, Option.map_some']
    have e1 : a / 4 * 4 + (a % 4 * 16 + b / 16) / 16 = a := by omega
    have e2 : (a % 4 * 16 + b / 16) % 16 * 16 + (b % 16 * 4 + c / 64) / 4 = b := by omega
    have e3 : (b % 16 * 4 + c / 64) % 4 * 64 + c % 64 = c := by omega
    rw [e1, e2, e3]

/-! ## The token codec round trip -/

theorem decodeTokenStages_encodeToken (j : Json) :
    decodeTokenStages (encodeToken j) = .ok j := by
  unfold decodeTokenStages encodeToken
  rw [show (String.mk (b64Encode (utf8Encode (jsonChars j)))).data
      = b64Encode (utf8Encode (jsonChars j)) from rfl]
  rw [b64_rt (utf8Encode (jsonChars j)) (utf8Encode_bytes_lt _)]
  dsimp only
  rw [utf8_rt (jsonChars j) _ (by
    have := utf8Encode_length (jsonChars j)
    omega)]
  dsimp only
  rw [parseJsonChars_jsonChars]

theorem decodeToken_encodeToken (j : Json) : decodeToken (encodeToken j) = .ok j := by
  unfold decodeToken
  rw [decodeTokenStages_encodeToken]

/-! ## Field lookup on the token payloads -/

theorem fieldLookup_append (key : String) (l1 l2 : List (String × Json)) :
    fieldLookup key (l1 ++ l2)
      = match fieldLookup key l2 with
        | some w => some w
        | none => fieldLookup key l1 := by
  induction l1 with
  | nil =>
    simp only [List.nil_append]
    cases fieldLookup key l2 <;> rfl
  | cons p t ih =>
    obtain ⟨k, v⟩ := p
    simp only [List.cons_append, fieldLookup, List.append_eq, ih]
    cases fieldLookup key l2 <;> rfl

theorem fieldLookup_append_none (key : String) (l1 l2 : List (String × Json))
    (h : fieldLookup key l2 = none) :
    fieldLookup key (l1 ++ l2) = fieldLookup key l1 := by
  rw [fieldLookup_append, h]

theorem fieldLookup_optField_ne (key k : String) (v : Option Json) (h : ¬(k = key)) :
    fieldLookup key (optField k v) = none := by
  cases v <;> simp [optField, fieldLookup, h]

theorem getField_mkRunTokenPayload (r : PipelineResult) (approval : Json) :
    (mkRunTokenPayload r approval).getField "stageIndex"
        = some (.num (haltIndexOrNeg r))
      ∧ (mkRunTokenPayload r approval).getField "resumeAtIndex"
        = some (.num (haltIndexOrNeg r + 1)) := by
  unfold mkRunTokenPayload Json.getField
  dsimp only
  constructor <;>
  · rw [fieldLookup_append_none _ _ _ (fieldLookup_optField_ne _ _ _ (by decide)),
      fieldLookup_append_none _ _ _ (fieldLookup_optField_ne _ _ _ (by decide))]
    rfl

theorem getField_mkResumeTokenPayload (resumeIndex : Int) (r : PipelineResult)
    (approval : Json) :
    (mkResumeTokenPayload resumeIndex r approval).getField "stageIndex"
        = some (.num (resumeIndex + haltIndexOrZero r))
      ∧ (mkResumeTokenPayload resumeIndex r approval).getField "resumeAtIndex"
        = some (.num (resumeIndex + haltIndexOrZero r + 1)) := by
  unfold mkResumeTokenPayload Json.getField
  dsimp only
  constructor <;>
  · rw [fieldLookup_append_none _ _ _ (fieldLookup_optField_ne _ _ _ (by decide)),
      fieldLookup_append_none _ _ _ (fieldLookup_optField_ne _ _ _ (by decide))]
    rfl

/-- A pipeline result that reports `halted` always records the halting stage's
index in `haltedAt`. -/
theorem runStages_halted (stages : List Stage) (idx : Nat) (input : List Json)
    (r : PipelineResult) (h : runStages stages idx input = .ok r) (hh : r.halted = true) :
    ∃ i, r.haltedAt = some i := by
  induction stages generalizing idx input with
  | nil =>
    simp only [runStages, Except.ok.injEq] at h
    rw [← h] at hh
    simp at hh
  | cons s t ih =>
    simp only [runStages] at h
    cases hs : s input with
    | error e => rw [hs] at h; dsimp only at h; exact absurd h (by simp)
    | ok r0 =>
      rw [hs] at h
      dsimp only at h
      by_cases hhalt : r0.halt
      · rw [if_pos hhalt] at h
        simp only [Except.ok.injEq] at h
        rw [← h]
        exact ⟨idx, rfl⟩
      · rw [if_neg hhalt] at h
        exact ih (idx + 1) r0.output h

/-- **C1.**  For every JSON-serializable halt-descriptor value `d`,
`decodeToken (encodeToken d)` returns a value equal to `d`: encoding to a
base64url continuation token and decoding it back is a lossless round trip. -/
theorem claim_c1_token_round_trip (d : Json) :
    decodeToken (encodeToken d) = .ok d :=
  decodeToken_encodeToken d

/-- **C4 counterexample.**  The original claim says a token that "lacks a
version field" makes `decodeToken` fail; but `decodeToken` performs no
version check at all: the token "e30" (the base64url encoding of the empty
object) carries neither a `protocolVersion` nor a `v` field, yet decodes
successfully. -/
theorem claim_c4_counterexample :
    decodeToken "e30" = .ok (Json.obj [])
      ∧ (Json.obj []).getField "protocolVersion" = none
      ∧ (Json.obj []).getField "v" = none :=
  ⟨rfl, rfl, rfl⟩

/-- **C4 (amended).**  Every decode failure — at the base64url stage, the
UTF-8 stage or the JSON-parse stage — surfaces as the single typed
invalid-token error, and a successful decode returns the parsed payload
unchanged: no other error escapes `decodeToken` and it never partially
succeeds.  (The original claim's "lacks a version field" clause is refuted
by the counterexample: no version check is performed.) -/
theorem claim_c4_error_funnel (t : String) :
    (∀ e, decodeTokenStages t = .error e → decodeToken t = .error .invalidToken)
      ∧ (∀ j, decodeTokenStages t = .ok j → decodeToken t = .ok j) := by
  constructor
  · intro e he
    unfold decodeToken
    rw [he]
  · intro j hj
    unfold decodeToken
    rw [hj]

/-- Witness for C4: a malformed token (alphabet miss), a truncated/overlong
UTF-8 payload, a non-JSON payload — all three stages funnel into the one
typed error — and a version-less but well-formed token decodes. -/
theorem claim_c4_witness :
    decodeToken "##" = .error .invalidToken
      ∧ decodeToken "-w" = .error .invalidToken
      ∧ decodeToken "QQ" = .error .invalidToken
      ∧ decodeToken "e30" = .ok (Json.obj []) :=
  ⟨(claim_c4_error_funnel "##").1 .base64Failure (by rfl),
   (claim_c4_error_funnel "-w").1 .utf8Failure (by rfl),
   (claim_c4_error_funnel "QQ").1 .notJson (by rfl),
   (claim_c4_error_funnel "e30").2 (Json.obj []) (by rfl)⟩

/-- **C3.**  Every continuation token produced by a halt of `run` or `resume`
satisfies `resumeAtIndex = stageIndex + 1`; for a `run` token, `stageIndex`
is the absolute index `haltedAt` of the halting stage, and for a `resume`
token the relative halt index of the remaining stage list is re-based by
adding the prior resume index, so the latest token alone identifies which
original stage to resume at. -/
theorem claim_c3_resume_index_invariant :
    (∀ (stages : List Stage) (input : List Json) (a : ApprovalInfo),
        (Lobster.run stages input).requiresApproval = some a →
        ∃ (r : PipelineResult) (p : Json),
          runPipelineInternal stages input = .ok r ∧
          decodeToken a.resumeToken = .ok p ∧
          ∃ i : Nat, r.haltedAt = some i ∧
            p.getField "stageIndex" = some (.num i) ∧
            p.getField "resumeAtIndex" = some (.num (i + 1)))
  ∧ (∀ (stages : List Stage) (token : String) (res : LobsterResult) (a : ApprovalInfo)
        (payload : Json) (r : PipelineResult),
        Lobster.resume stages token true = .ok res →
        res.requiresApproval = some a →
        decodeToken token = .ok payload →
        runPipelineInternal (jsSliceFrom stages (resumeIndexOf payload))
            (jsIterableItems (payload.getField "items")) = .ok r →
        ∃ p, decodeToken a.resumeToken = .ok p ∧
          ∃ i : Nat, r.haltedAt = some i ∧
            p.getField "stageIndex" = some (.num (resumeIndexOf payload + i)) ∧
            p.getField "resumeAtIndex" = some (.num (resumeIndexOf payload + i + 1))) := by
  constructor
  · intro stages input a ha
    unfold Lobster.run at ha
    cases hrun : runPipelineInternal stages input with
    | error m =>
      rw [hrun] at ha
      exact absurd ha (by simp)
    | ok r =>
      rw [hrun] at ha
      dsimp only at ha
      by_cases happ : approvalHalt r
      · rw [if_pos happ] at ha
        dsimp only at ha
        rw [Option.some.injEq] at ha
        have hh : r.halted = true := by
          simp only [approvalHalt, Bool.and_eq_true] at happ
          exact happ.1.1
        obtain ⟨i, hi⟩ := runStages_halted stages 0 input r hrun hh
        have hneg : haltIndexOrNeg r = (i : Int) := by
          simp [haltIndexOrNeg, hi]
        refine ⟨r, mkRunTokenPayload r (r.items.headD .null), rfl, ?_, i, hi, ?_, ?_⟩
        · rw [← ha]
          exact decodeToken_encodeToken _
        · rw [(getField_mkRunTokenPayload r (r.items.headD .null)).1, hneg]
        · rw [(getField_mkRunTokenPayload r (r.items.headD .null)).2, hneg]
      · rw [if_neg happ] at ha
        exact absurd ha (by simp)
  · intro stages token res a payload r h1 h2 h3 h4
    unfold Lobster.resume at h1
    rw [if_neg (by decide : ¬((!true) = true))] at h1
    rw [h3] at h1
    dsimp only at h1
    rw [h4] at h1
    dsimp only at h1
    by_cases happ : approvalHalt r
    · rw [if_pos happ] at h1
      rw [Except.ok.injEq] at h1
      rw [← h1] at h2
      dsimp only at h2
      rw [Option.some.injEq] at h2
      have hh : r.halted = true := by
        simp only [approvalHalt, Bool.and_eq_true] at happ
        exact happ.1.1
      obtain ⟨i, hi⟩ := runStages_halted _ 0 _ r h4 hh
      have hzero : haltIndexOrZero r = (i : Int) := by
        simp [haltIndexOrZero, hi]
      refine ⟨mkResumeTokenPayload (resumeIndexOf payload) r (r.items.headD .null),
        ?_, i, hi, ?_, ?_⟩
      · rw [← h2]
        exact decodeToken_encodeToken _
      · rw [(getField_mkResumeTokenPayload (resumeIndexOf payload) r
          (r.items.headD .null)).1, hzero]
      · rw [(getField_mkResumeTokenPayload (resumeIndexOf payload) r
          (r.items.headD .null)).2, hzero]
    · rw [if_neg happ] at h1
      rw [Except.ok.injEq] at h1
      rw [← h1] at h2
      exact absurd h2 (by simp)

/-- Witness for C3 on the two-gate workflow: the first halt's token carries
`stageIndex = 0`, `resumeAtIndex = 1`; resuming and halting at the second
gate carries the re-based `stageIndex = 1`, `resumeAtIndex = 2`. -/
theorem claim_c3_witness :
    (∃ (r : PipelineResult) (p : Json),
        runPipelineInternal twoGateStages [] = .ok r ∧
        decodeToken wRunInfo.resumeToken = .ok p ∧
        ∃ i : Nat, r.haltedAt = some i ∧
          p.getField "stageIndex" = some (.num i) ∧
          p.getField "resumeAtIndex" = some (.num (i + 1)))
  ∧ (∃ p, decodeToken wResumeInfo.resumeToken = .ok p ∧
        ∃ i : Nat, wResumePipeline.haltedAt = some i ∧
          p.getField "stageIndex" = some (.num (resumeIndexOf wRunPayload + i)) ∧
          p.getField "resumeAtIndex" = some (.num (resumeIndexOf wRunPayload + i + 1))) :=
  ⟨claim_c3_resume_index_invariant.1 twoGateStages [] wRunInfo (by rfl),
   claim_c3_resume_index_invariant.2 twoGateStages wRunInfo.resumeToken wResumeResult
     wResumeInfo wRunPayload wResumePipeline
     (by
       show Lobster.resume twoGateStages wRunInfo.resumeToken true = .ok wResumeResult
       unfold wResumeResult Lobster.resume
       rw [show wRunInfo.resumeToken = encodeToken wRunTokenPayload from rfl,
         decodeToken_encodeToken]
       rfl)
     (by
       show wResumeResult.requiresApproval = some wResumeInfo
       unfold wResumeInfo wResumeResult Lobster.resume
       rw [show wRunInfo.resumeToken = encodeToken wRunTokenPayload from rfl,
         decodeToken_encodeToken]
       rfl)
     (by
       show decodeToken wRunInfo.resumeToken = .ok wRunPayload
       unfold wRunPayload
       rw [show wRunInfo.resumeToken = encodeToken wRunTokenPayload from rfl,
         decodeToken_encodeToken])
     (by
       have hp : wRunPayload = wRunTokenPayload := by
         unfold wRunPayload
         rw [show wRunInfo.resumeToken = encodeToken wRunTokenPayload from rfl,
           decodeToken_encodeToken]
       show runPipelineInternal (jsSliceFrom twoGateStages (resumeIndexOf wRunPayload))
           (jsIterableItems (wRunPayload.getField "items")) = .ok wResumePipeline
       unfold wResumePipeline
       rw [hp]
       rfl)⟩
